import Mathlib

/-!
# Bode plot calculator (`src/src/App.js`): numeric engine

Shallow embedding of the numeric core of `App.js`: the complex kernel
(`complexAdd`, `complexMultiply`, `complexDivide`, `complexPower`,
`complexMagnitude`, `complexPhase`), `evaluatePolynomial`, `findRoots`,
`parseCoefficients` and `calculateBodePlot` (sweep loop, decade loop, label,
poles and zeros) as a function from the state before the call to the state
after it.

JavaScript numbers are modelled by an ordered field `K` (the theorems take
`K = ℝ`, exact real arithmetic); the definitions are polymorphic in `K`, so
they run on `ℚ`.  The host library functions the source calls (`Math.sqrt`,
`Math.log10`, `Math.pow`, `Math.atan2`, `Math.PI`) are parameters of the
definitions that call them; the theorems instantiate them with `Real.sqrt`,
`Real.logb 10`, real exponentiation, `Complex.arg` and `Real.pi`.
`calculateBodePlot` takes them, with `parseFloat` and the number-to-text
conversion, as a `Host` record, and its theorems hold for every host.
Division follows the field convention `x / 0 = 0`; the IEEE results
`Infinity`/`NaN` of a division by zero are outside this model.
-/

namespace BodePlot

/-- Complex number object `{ real, imag }` of the source. -/
structure Cx (K : Type) where
  real : K
  imag : K
deriving DecidableEq

/-- A root as stored by `findRoots`: a plain number, or a `{ real, imag }` object. -/
inductive Root (K : Type) where
  | num : K → Root K
  | cx : Cx K → Root K
deriving DecidableEq

/-- Entry `{ omega, magnitude }` pushed to `magData`. -/
structure MagPoint (K : Type) where
  omega : K
  magnitude : K
deriving DecidableEq

/-- Entry `{ omega, phase }` pushed to `phsData`. -/
structure PhasePoint (K : Type) where
  omega : K
  phase : K
deriving DecidableEq

/-- Entry `{ omega, k, fi }` pushed to `tableValues`. -/
structure TableRow (K : Type) where
  omega : K
  k : K
  fi : K
deriving DecidableEq

/-- The React state cells that `calculateBodePlot` writes through their setters. -/
structure AppState (K : Type) where
  magnitudeData : List (MagPoint K)
  phaseData : List (PhasePoint K)
  transferFunction : String
  poles : List (Root K)
  zeros : List (Root K)
  tableData : List (TableRow K)
deriving DecidableEq

/-- The host functions the source calls: the global `parseFloat` (`none` stands for `NaN`),
the number-to-text conversion of `toString()` and of template literals, and `Math.sqrt`,
`Math.log10`, `Math.pow`, `Math.atan2`, `Math.PI`. -/
structure Host (K : Type) where
  parseFloat : String → Option K
  numToString : K → String
  sqrt : K → K
  log10 : K → K
  pow : K → K → K
  atan2 : K → K → K
  PI : K

/-- The characters JavaScript treats as white space in `trim()` and in the regular expression
class `\s` (ECMAScript WhiteSpace and LineTerminator). -/
def isWhiteSpace (c : Char) : Bool :=
  c.toNat = 0x09 || c.toNat = 0x0A || c.toNat = 0x0B || c.toNat = 0x0C || c.toNat = 0x0D
    || c.toNat = 0x20 || c.toNat = 0xA0 || c.toNat = 0x1680
    || (0x2000 ≤ c.toNat && c.toNat ≤ 0x200A)
    || c.toNat = 0x2028 || c.toNat = 0x2029 || c.toNat = 0x202F || c.toNat = 0x205F
    || c.toNat = 0x3000 || c.toNat = 0xFEFF

/-- JavaScript `trim()` on a character list: drop the white space at both ends. -/
def trim (cs : List Char) : List Char :=
  ((cs.dropWhile isWhiteSpace).reverse.dropWhile isWhiteSpace).reverse

/-- JavaScript `split(/\s+/)` on a character list: `cur` is the token being read (reversed),
`inSep` tells that the previous character was white space.  Every maximal run of white space
ends the current token; the last token is emitted at the end of the input, also when empty. -/
def splitWhiteSpaceAux : List Char → List Char → Bool → List String
  | [], cur, _ => [String.mk cur.reverse]
  | c :: cs, cur, inSep =>
    if isWhiteSpace c then
      if inSep then splitWhiteSpaceAux cs [] true
      else String.mk cur.reverse :: splitWhiteSpaceAux cs [] true
    else splitWhiteSpaceAux cs (c :: cur) false

/-- The tokens `str.trim().split(/\s+/)` of `parseCoefficients` (App.js 20). -/
def tokens (str : String) : List String :=
  splitWhiteSpaceAux (trim str.toList) [] false

section Engine

variable {K : Type} [LinearOrderedField K]

/-- Source `complexAdd` (App.js 68-71). -/
def complexAdd (a b : Cx K) : Cx K :=
  { real := a.real + b.real
    imag := a.imag + b.imag }

/-- Source `complexMultiply` (App.js 73-76). -/
def complexMultiply (a b : Cx K) : Cx K :=
  { real := a.real * b.real - a.imag * b.imag
    imag := a.real * b.imag + a.imag * b.real }

/-- Source `complexDivide` (App.js 78-84). -/
def complexDivide (a b : Cx K) : Cx K :=
  let denom := b.real * b.real + b.imag * b.imag
  { real := (a.real * b.real + a.imag * b.imag) / denom
    imag := (a.imag * b.real - a.real * b.imag) / denom }

/-- The `for` loop of `complexPower` (App.js 90-94): start from `(1, 0)` and
multiply by `base` once per iteration `i = 0 .. exp - 1`. -/
def complexPowerLoop (base : Cx K) (exp : Nat) : Cx K :=
  (List.range exp).foldl (fun result _ => complexMultiply result base) { real := 1, imag := 0 }

/-- Source `complexPower` (App.js 86-95): two early returns, then the loop. -/
def complexPower (base : Cx K) (exp : Nat) : Cx K :=
  if exp = 0 then { real := 1, imag := 0 }
  else if exp = 1 then base
  else complexPowerLoop base exp

/-- Source `complexMagnitude` (App.js 97); `sqrt` is `Math.sqrt`. -/
def complexMagnitude (sqrt : K → K) (c : Cx K) : K :=
  sqrt (c.real * c.real + c.imag * c.imag)

/-- Source `complexPhase` (App.js 98); `atan2` is `Math.atan2`, `PI` is `Math.PI`. -/
def complexPhase (atan2 : K → K → K) (PI : K) (c : Cx K) : K :=
  atan2 c.imag c.real * 180 / PI

/-- Source `evaluatePolynomial` (App.js 53-65): the loop over `i = 0 .. length - 1`
adds `complexMultiply(complexPower(s, length - 1 - i), (coeffs[i], 0))` to `result`. -/
def evaluatePolynomial (coeffs : List K) (omega : K) : Cx K :=
  let s : Cx K := { real := 0, imag := omega }
  (List.range coeffs.length).foldl
    (fun result i =>
      let power := coeffs.length - 1 - i
      let sPower := complexPower s power
      let term := complexMultiply sPower { real := coeffs.getD i 0, imag := 0 }
      complexAdd result term)
    { real := 0, imag := 0 }

/-- Source `findRoots` (App.js 24-50); `sqrt` is `Math.sqrt`.  `n` is
`coeffs.length - 1` as an integer (it is `-1` for the empty array). -/
def findRoots (sqrt : K → K) (coeffs : List K) : List (Root K) :=
  let n : Int := (coeffs.length : Int) - 1
  if n = 0 then []
  else if n = 1 then [Root.num (-(coeffs.getD 1 0) / coeffs.getD 0 0)]
  else
    let roots : List (Root K) := []
    if n = 2 then
      let a := coeffs.getD 0 0
      let b := coeffs.getD 1 0
      let c := coeffs.getD 2 0
      let discriminant := b * b - 4 * a * c
      if discriminant ≥ 0 then
        (roots ++ [Root.num ((-b + sqrt discriminant) / (2 * a))])
          ++ [Root.num ((-b - sqrt discriminant) / (2 * a))]
      else
        let real := -b / (2 * a)
        let imag := sqrt (-discriminant) / (2 * a)
        (roots ++ [Root.cx { real := real, imag := imag }])
          ++ [Root.cx { real := real, imag := -imag }]
    else roots

/-- Frequency of iteration `i` of the sweep loop of `calculateBodePlot`
(App.js 111-117): `Math.pow(10, logFreqMin + i * logStep)`. -/
def sweepOmega (log10 : K → K) (pow : K → K → K) (freqMin freqMax : K) (numPoints i : Nat) : K :=
  let logFreqMin := log10 freqMin
  let logFreqMax := log10 freqMax
  let logStep := (logFreqMax - logFreqMin) / ((numPoints : K) - 1)
  let logFreq := logFreqMin + (i : K) * logStep
  pow 10 logFreq

/-- The value `H` of `calculateBodePlot` (App.js 120-122):
`complexDivide(evaluatePolynomial(numCoeffs, omega), evaluatePolynomial(denCoeffs, omega))`. -/
def transferValue (numCoeffs denCoeffs : List K) (omega : K) : Cx K :=
  let numeratorValue := evaluatePolynomial numCoeffs omega
  let denominatorValue := evaluatePolynomial denCoeffs omega
  complexDivide numeratorValue denominatorValue

/-- The value `magnitudeDB` of `calculateBodePlot` (App.js 125-126). -/
def magnitudeDB (sqrt log10 : K → K) (H : Cx K) : K :=
  let magnitude := complexMagnitude sqrt H
  20 * log10 magnitude

/-- The sweep loop of `calculateBodePlot` (App.js 107-131): for `i = 0 .. numPoints - 1`
push one entry to `magData` and one to `phsData`; the result is the pair
`(magData, phsData)` handed to `setMagnitudeData` and `setPhaseData`. -/
def sweepLoop (sqrt log10 : K → K) (pow atan2 : K → K → K) (PI : K)
    (numCoeffs denCoeffs : List K) (freqMin freqMax : K) (numPoints : Nat) :
    List (MagPoint K) × List (PhasePoint K) :=
  (List.range numPoints).foldl
    (fun data i =>
      let omega := sweepOmega log10 pow freqMin freqMax numPoints i
      let H := transferValue numCoeffs denCoeffs omega
      let magnitudeDB := magnitudeDB sqrt log10 H
      let phaseDeg := complexPhase atan2 PI H
      (data.1 ++ [{ omega := omega, magnitude := magnitudeDB }],
       data.2 ++ [{ omega := omega, phase := phaseDeg }]))
    ([], [])

/-- Source `parseCoefficients` (App.js 19-21):
`str.trim().split(/\s+/).map(parseFloat).filter(x => !isNaN(x))`; the `NaN` results are the
`none` ones. -/
def parseCoefficients (parseFloat : String → Option K) (str : String) : List K :=
  ((tokens str).map parseFloat).filterMap id

/-- The decade loop of `calculateBodePlot` (App.js 139-156),
`while (currentOmega <= 100) { ...; currentOmega *= 10; }`, with a bound `fuel` on the number
of evaluations of the loop condition: `none` when the bound is reached. -/
def decadeLoop (sqrt log10 : K → K) (atan2 : K → K → K) (PI : K) (numCoeffs denCoeffs : List K) :
    Nat → K → List (TableRow K) → Option (List (TableRow K))
  | 0, _, _ => none
  | fuel + 1, currentOmega, tableValues =>
    if currentOmega ≤ 100 then
      let H := transferValue numCoeffs denCoeffs currentOmega
      let magnitudeDB := magnitudeDB sqrt log10 H
      let phaseDeg := complexPhase atan2 PI H
      decadeLoop sqrt log10 atan2 PI numCoeffs denCoeffs fuel (currentOmega * 10)
        (tableValues ++ [{ omega := currentOmega, k := magnitudeDB, fi := phaseDeg }])
    else some tableValues

/-- The text built for one coefficient list in `calculateBodePlot` (App.js 160-165 for the
numerator, 167-172 for the denominator, the same code twice):
`coeffs.map((c, i) => ...).join(' + ')`. -/
def polyString (numToString : K → String) (coeffs : List K) : String :=
  String.intercalate " + "
    (coeffs.enum.map (fun ic =>
      let i := ic.1
      let c := ic.2
      let power := coeffs.length - 1 - i
      if power = 0 then numToString c
      else if power = 1 then numToString c ++ "s"
      else numToString c ++ "s^" ++ toString power))

/-- Source `calculateBodePlot` (App.js 101-181).  The inputs `numerator`, `denominator`,
`freqMin`, `freqMax`, `numPoints` are the state cells the function reads; `st` holds the cells
it writes.  The result is the state after the call: `st` itself on the early `return`, the
cells given to the six setters otherwise; `none` when `fuel` does not suffice for the decade
loop. -/
def calculateBodePlot (h : Host K) (fuel : Nat) (numerator denominator : String)
    (freqMin freqMax : K) (numPoints : Nat) (st : AppState K) : Option (AppState K) :=
  let numCoeffs := parseCoefficients h.parseFloat numerator
  let denCoeffs := parseCoefficients h.parseFloat denominator
  if numCoeffs.length = 0 ∨ denCoeffs.length = 0 then some st
  else
    let data := sweepLoop h.sqrt h.log10 h.pow h.atan2 h.PI numCoeffs denCoeffs
      freqMin freqMax numPoints
    match decadeLoop h.sqrt h.log10 h.atan2 h.PI numCoeffs denCoeffs fuel 0.001 [] with
    | none => none
    | some tableValues =>
      let numStr := polyString h.numToString numCoeffs
      let denStr := polyString h.numToString denCoeffs
      let calculatedZeros := findRoots h.sqrt numCoeffs
      let calculatedPoles := findRoots h.sqrt denCoeffs
      some
        { magnitudeData := data.1
          phaseData := data.2
          tableData := tableValues
          transferFunction := "H(s) = (" ++ numStr ++ ") / (" ++ denStr ++ ")"
          zeros := calculatedZeros
          poles := calculatedPoles }

/-- The term of the label for coefficient `c` at power `p`, as the specification words it:
the text of `c` alone for `p = 0`, followed by `s` for `p = 1`, followed by `s^p` for
`p >= 2`. -/
def specTerm (numToString : K → String) (c : K) (p : Nat) : String :=
  match p with
  | 0 => numToString c
  | 1 => numToString c ++ "s"
  | q + 2 => numToString c ++ "s^" ++ toString (q + 2)

/-- The terms of the label for a coefficient list, as the specification words it: one term
per coefficient, in descending power order (the first coefficient has power `length - 1`). -/
def specTerms (numToString : K → String) : List K → List String
  | [] => []
  | c :: cs => specTerm numToString c cs.length :: specTerms numToString cs

end Engine

/-- Value of a decimal digit character. -/
def digitValue (c : Char) : Nat := c.toNat - 48

/-- Value of a string of decimal digits. -/
def digitsValue (ds : List Char) : Nat :=
  ds.foldl (fun acc d => acc * 10 + digitValue d) 0

/-- The exponent denoted by the text after the mantissa: `e` or `E`, an optional sign and at
least one digit; `0` when no such exponent part is there. -/
def exponentValue : List Char → Int
  | [] => 0
  | e :: r =>
    if e = 'e' ∨ e = 'E' then
      match r with
      | '-' :: d => -((digitsValue (d.takeWhile Char.isDigit) : Nat) : Int)
      | '+' :: d => ((digitsValue (d.takeWhile Char.isDigit) : Nat) : Int)
      | d => ((digitsValue (d.takeWhile Char.isDigit) : Nat) : Int)
    else 0

/-- The longest prefix of `cs` that is an unsigned decimal literal (`digits`, `digits.`,
`digits.digits`, `.digits`, each with an optional exponent part), if there is one, as
`(m, f, e)`: the value `m` of its digits before the exponent part, the number `f` of digits
after the point, the exponent `e`.  The literal denotes `m / 10^f * 10^e`. -/
def unsignedDecimal (cs : List Char) : Option (Nat × Nat × Int) :=
  let intDigits := cs.takeWhile Char.isDigit
  let afterInt := cs.dropWhile Char.isDigit
  let fracDigits := match afterInt with
    | '.' :: r => r.takeWhile Char.isDigit
    | _ => []
  let afterFrac := match afterInt with
    | '.' :: r => r.dropWhile Char.isDigit
    | _ => afterInt
  if intDigits.isEmpty && fracDigits.isEmpty then none
  else some (digitsValue (intDigits ++ fracDigits), fracDigits.length, exponentValue afterFrac)

/-- The longest prefix of `s`, after its leading white space, that is a signed decimal
literal, if there is one: whether it has a minus sign, and its unsigned part. -/
def signedDecimal (s : String) : Option (Bool × Nat × Nat × Int) :=
  match s.toList.dropWhile isWhiteSpace with
  | '-' :: r => (unsignedDecimal r).map (fun d => (true, d))
  | '+' :: r => (unsignedDecimal r).map (fun d => (false, d))
  | cs => (unsignedDecimal cs).map (fun d => (false, d))

/-- Decimal model of the host function `parseFloat` of ECMAScript: skip leading white space,
read the longest prefix that is a signed decimal literal and return its exact value, `none`
(that is `NaN`) when there is no such prefix.  The literal `Infinity` has no value in the
number model and is not recognised; the rounding to a binary double is not modelled. -/
def parseFloat {K : Type} [LinearOrderedField K] (s : String) : Option K :=
  (signedDecimal s).map (fun d =>
    let v : K := (d.2.1 : K) / 10 ^ d.2.2.1 * 10 ^ d.2.2.2
    if d.1 then -v else v)

/-- The complex number denoted by a `{ real, imag }` object over the reals. -/
def toComplex (c : Cx ℝ) : ℂ := ⟨c.real, c.imag⟩

/-! ## The complex kernel and the polynomial evaluator as complex arithmetic -/

theorem toComplex_complexAdd (a b : Cx ℝ) :
    toComplex (complexAdd a b) = toComplex a + toComplex b := by
  apply Complex.ext <;> simp [toComplex, complexAdd]

theorem toComplex_complexMultiply (a b : Cx ℝ) :
    toComplex (complexMultiply a b) = toComplex a * toComplex b := by
  apply Complex.ext <;> simp [toComplex, complexMultiply]

theorem complexPowerLoop_zero {K : Type} [LinearOrderedField K] (base : Cx K) :
    complexPowerLoop base 0 = { real := 1, imag := 0 } := by
  simp [complexPowerLoop]

theorem complexPowerLoop_succ {K : Type} [LinearOrderedField K] (base : Cx K) (n : Nat) :
    complexPowerLoop base (n + 1) = complexMultiply (complexPowerLoop base n) base := by
  simp [complexPowerLoop, List.range_succ, List.foldl_append]

theorem complexPowerLoop_one {K : Type} [LinearOrderedField K] (base : Cx K) :
    complexPowerLoop base 1 = base := by
  rw [complexPowerLoop_succ, complexPowerLoop_zero]
  cases base
  simp [complexMultiply]

theorem complexPower_eq_loop {K : Type} [LinearOrderedField K] (base : Cx K) (n : Nat) :
    complexPower base n = complexPowerLoop base n := by
  unfold complexPower
  split_ifs with h0 h1
  · rw [h0, complexPowerLoop_zero]
  · rw [h1, complexPowerLoop_one]
  · rfl

theorem toComplex_complexPowerLoop (base : Cx ℝ) (n : Nat) :
    toComplex (complexPowerLoop base n) = toComplex base ^ n := by
  induction n with
  | zero =>
    rw [complexPowerLoop_zero, pow_zero]
    apply Complex.ext <;> simp [toComplex]
  | succ k ih => rw [complexPowerLoop_succ, toComplex_complexMultiply, ih, pow_succ]

theorem toComplex_complexPower (base : Cx ℝ) (n : Nat) :
    toComplex (complexPower base n) = toComplex base ^ n := by
  rw [complexPower_eq_loop, toComplex_complexPowerLoop]

theorem toComplex_foldl_complexAdd (f : Nat → Cx ℝ) (n : Nat) :
    toComplex ((List.range n).foldl (fun result i => complexAdd result (f i)) { real := 0, imag := 0 })
      = ∑ i ∈ Finset.range n, toComplex (f i) := by
  induction n with
  | zero => apply Complex.ext <;> simp [toComplex]
  | succ k ih =>
    rw [List.range_succ, List.foldl_append, Finset.sum_range_succ, ← ih]
    simp [toComplex_complexAdd]

theorem toComplex_jomega (omega : ℝ) :
    toComplex { real := 0, imag := omega } = Complex.I * (omega : ℂ) := by
  apply Complex.ext <;> simp [toComplex]

theorem toComplex_ofReal (c : ℝ) : toComplex { real := c, imag := 0 } = (c : ℂ) := by
  apply Complex.ext <;> simp [toComplex]

theorem toComplex_evaluatePolynomial (coeffs : List ℝ) (omega : ℝ) :
    toComplex (evaluatePolynomial coeffs omega)
      = ∑ i ∈ Finset.range coeffs.length,
          ((coeffs.getD i 0 : ℝ) : ℂ) * (Complex.I * (omega : ℂ)) ^ (coeffs.length - 1 - i) := by
  unfold evaluatePolynomial
  simp only []
  rw [toComplex_foldl_complexAdd]
  refine Finset.sum_congr rfl ?_
  intro i _
  rw [toComplex_complexMultiply, toComplex_complexPower, toComplex_jomega, toComplex_ofReal,
    mul_comm]

theorem term_re (c omega : ℝ) (p : Nat) :
    (((c : ℝ) : ℂ) * (Complex.I * (omega : ℂ)) ^ p).re
      = if Even p then (-1) ^ (p / 2) * c * omega ^ p else 0 := by
  rcases Nat.even_or_odd' p with ⟨k, rfl | rfl⟩
  · have h2 : (2 * k) / 2 = k := by omega
    rw [if_pos (even_two_mul k), h2, mul_pow, pow_mul, Complex.I_sq]
    have : ((c : ℂ) * ((-1) ^ k * (omega : ℂ) ^ (2 * k))) = (((-1) ^ k * c * omega ^ (2 * k) : ℝ) : ℂ) := by
      push_cast; ring
    rw [this, Complex.ofReal_re]
  · have hne : ¬ Even (2 * k + 1) := by simp
    rw [if_neg hne, mul_pow, pow_succ, pow_mul, Complex.I_sq]
    have : ((c : ℂ) * ((-1) ^ k * Complex.I * (omega : ℂ) ^ (2 * k + 1)))
        = (((-1) ^ k * c * omega ^ (2 * k + 1) : ℝ) : ℂ) * Complex.I := by
      push_cast; ring
    rw [this, Complex.re_ofReal_mul, Complex.I_re, mul_zero]

theorem term_im (c omega : ℝ) (p : Nat) :
    (((c : ℝ) : ℂ) * (Complex.I * (omega : ℂ)) ^ p).im
      = if Odd p then (-1) ^ ((p - 1) / 2) * c * omega ^ p else 0 := by
  rcases Nat.even_or_odd' p with ⟨k, rfl | rfl⟩
  · have hne : ¬ Odd (2 * k) := by simp
    rw [if_neg hne, mul_pow, pow_mul, Complex.I_sq]
    have : ((c : ℂ) * ((-1) ^ k * (omega : ℂ) ^ (2 * k))) = (((-1) ^ k * c * omega ^ (2 * k) : ℝ) : ℂ) := by
      push_cast; ring
    rw [this, Complex.ofReal_im]
  · have h2 : (2 * k + 1 - 1) / 2 = k := by omega
    have hodd : Odd (2 * k + 1) := by simp
    rw [if_pos hodd, h2, mul_pow, pow_succ, pow_mul, Complex.I_sq]
    have : ((c : ℂ) * ((-1) ^ k * Complex.I * (omega : ℂ) ^ (2 * k + 1)))
        = (((-1) ^ k * c * omega ^ (2 * k + 1) : ℝ) : ℂ) * Complex.I := by
      push_cast; ring
    rw [this, Complex.im_ofReal_mul, Complex.I_im, mul_one]

/-- C1: `evaluatePolynomial coeffs omega` is the value of the polynomial at `s = j*omega`:
the complex sum over `i < L` of `coeffs[i] * (j*omega)^(L-1-i)` (index 0 is the highest
power); its real part is the alternating-sign sum of the even-power terms and its imaginary
part the alternating-sign sum of the odd-power terms.  It holds for every coefficient
sequence, so for every non-empty one. -/
theorem evaluatePolynomial_eq_sum (coeffs : List ℝ) (omega : ℝ) :
    toComplex (evaluatePolynomial coeffs omega)
        = ∑ i ∈ Finset.range coeffs.length,
            ((coeffs.getD i 0 : ℝ) : ℂ) * (Complex.I * (omega : ℂ)) ^ (coeffs.length - 1 - i)
    ∧ (evaluatePolynomial coeffs omega).real
        = ∑ i ∈ Finset.range coeffs.length,
            (if Even (coeffs.length - 1 - i)
              then (-1) ^ ((coeffs.length - 1 - i) / 2) * coeffs.getD i 0
                    * omega ^ (coeffs.length - 1 - i)
              else 0)
    ∧ (evaluatePolynomial coeffs omega).imag
        = ∑ i ∈ Finset.range coeffs.length,
            (if Odd (coeffs.length - 1 - i)
              then (-1) ^ ((coeffs.length - 1 - i - 1) / 2) * coeffs.getD i 0
                    * omega ^ (coeffs.length - 1 - i)
              else 0) := by
  have h := toComplex_evaluatePolynomial coeffs omega
  refine ⟨h, ?_, ?_⟩
  · have hre := congrArg Complex.re h
    rw [Complex.re_sum] at hre
    simp only [term_re] at hre
    exact hre
  · have him := congrArg Complex.im h
    rw [Complex.im_sum] at him
    simp only [term_im] at him
    exact him

/-! ## Root finder -/

theorem findRoots_three {K : Type} [LinearOrderedField K] (sqrt : K → K) (a b c : K) :
    findRoots sqrt [a, b, c] =
      if b * b - 4 * a * c ≥ 0 then
        [Root.num ((-b + sqrt (b * b - 4 * a * c)) / (2 * a)),
         Root.num ((-b - sqrt (b * b - 4 * a * c)) / (2 * a))]
      else
        [Root.cx { real := -b / (2 * a), imag := sqrt (-(b * b - 4 * a * c)) / (2 * a) },
         Root.cx { real := -b / (2 * a), imag := -(sqrt (-(b * b - 4 * a * c)) / (2 * a)) }] := by
  simp [findRoots]

/-- A negative discriminant forces `a ≠ 0`, so the divisions by `2 * a` in the complex branch of
`findRoots` are genuine divisions. -/
theorem leading_ne_zero_of_discriminant_neg (a b c : ℝ) (hD : b * b - 4 * a * c < 0) : a ≠ 0 := by
  rintro rfl
  nlinarith [mul_self_nonneg b]

/-- C2, counterexample: `[-1, 0, -1]` has negative discriminant `-4`, and `findRoots`
returns `(0, -1)` first and `(0, +1)` second; so it is false that for every negative
discriminant the first returned root has strictly positive imaginary part. -/
theorem findRoots_complex_order_counterexample :
    ((0 : ℝ) * 0 - 4 * (-1) * (-1) < 0)
    ∧ findRoots Real.sqrt [(-1 : ℝ), 0, -1]
        = [Root.cx ({ real := 0, imag := -1 } : Cx ℝ), Root.cx { real := 0, imag := 1 }]
    ∧ ¬ (∀ a b c : ℝ, b * b - 4 * a * c < 0 →
          ∃ z w : Cx ℝ, findRoots Real.sqrt [a, b, c] = [Root.cx z, Root.cx w]
            ∧ 0 < z.imag ∧ w.imag < 0) := by
  have h4 : Real.sqrt 4 = 2 := by
    rw [show (4 : ℝ) = 2 ^ 2 by norm_num]
    exact Real.sqrt_sq (by norm_num)
  have hval : findRoots Real.sqrt [(-1 : ℝ), 0, -1]
      = [Root.cx ({ real := 0, imag := -1 } : Cx ℝ), Root.cx { real := 0, imag := 1 }] := by
    rw [findRoots_three]
    norm_num [h4]
  refine ⟨by norm_num, hval, ?_⟩
  intro h
  obtain ⟨z, w, hzw, hz, _⟩ := h (-1) 0 (-1) (by norm_num)
  rw [hval] at hzw
  simp only [List.cons.injEq, Root.cx.injEq, and_true] at hzw
  rw [← hzw.1] at hz
  norm_num at hz

/-- C2, amended: for `[a, b, c]` with negative discriminant `D = b^2 - 4ac`, `findRoots`
returns exactly two complex values, both with real part `-b/(2a)`, with imaginary parts
`sqrt(-D)/(2a)` and `-sqrt(-D)/(2a)` in that order; the first is strictly positive and the
second strictly negative when `a > 0`, and the signs are the other way round when `a < 0`;
for `[1, 0, 1]` the result is `(0, +1)` then `(0, -1)`. -/
theorem findRoots_complex_pair (a b c : ℝ) (hD : b * b - 4 * a * c < 0) :
    findRoots Real.sqrt [a, b, c]
        = [Root.cx { real := -b / (2 * a), imag := Real.sqrt (-(b * b - 4 * a * c)) / (2 * a) },
           Root.cx { real := -b / (2 * a), imag := -(Real.sqrt (-(b * b - 4 * a * c)) / (2 * a)) }]
    ∧ (0 < a → 0 < Real.sqrt (-(b * b - 4 * a * c)) / (2 * a)
              ∧ -(Real.sqrt (-(b * b - 4 * a * c)) / (2 * a)) < 0)
    ∧ (a < 0 → Real.sqrt (-(b * b - 4 * a * c)) / (2 * a) < 0
              ∧ 0 < -(Real.sqrt (-(b * b - 4 * a * c)) / (2 * a)))
    ∧ findRoots Real.sqrt [(1 : ℝ), 0, 1]
        = [Root.cx ({ real := 0, imag := 1 } : Cx ℝ), Root.cx { real := 0, imag := -1 }] := by
  have hs : 0 < Real.sqrt (-(b * b - 4 * a * c)) := Real.sqrt_pos.mpr (by linarith)
  refine ⟨?_, ?_, ?_, ?_⟩
  · rw [findRoots_three, if_neg (not_le.mpr hD)]
  · intro ha
    have : 0 < Real.sqrt (-(b * b - 4 * a * c)) / (2 * a) := div_pos hs (by linarith)
    exact ⟨this, by linarith⟩
  · intro ha
    have : Real.sqrt (-(b * b - 4 * a * c)) / (2 * a) < 0 := div_neg_of_pos_of_neg hs (by linarith)
    exact ⟨this, by linarith⟩
  · have h4 : Real.sqrt 4 = 2 := by
      rw [show (4 : ℝ) = 2 ^ 2 by norm_num]
      exact Real.sqrt_sq (by norm_num)
    rw [findRoots_three]
    norm_num [h4]

theorem findRoots_complex_pair_witness :
    ((0 : ℝ) * 0 - 4 * 1 * 1 < 0)
    ∧ findRoots Real.sqrt [(1 : ℝ), 0, 1]
        = [Root.cx ({ real := 0, imag := 1 } : Cx ℝ), Root.cx { real := 0, imag := -1 }] :=
  ⟨by norm_num, (findRoots_complex_pair 1 0 1 (by norm_num)).2.2.2⟩

/-- C3: for `[a, b, c]` with `a != 0` and discriminant `D = b^2 - 4ac >= 0`, `findRoots`
returns exactly the two real numbers `(-b + sqrt D)/(2a)` and `(-b - sqrt D)/(2a)` in that
order; every returned value `r` satisfies `a*r^2 + b*r + c = 0`; when `D = 0` both entries
are equal; for `[1, 2, 1]` both are `-1`. -/
theorem findRoots_real_pair (a b c : ℝ) (ha : a ≠ 0) (hD : b * b - 4 * a * c ≥ 0) :
    findRoots Real.sqrt [a, b, c]
        = [Root.num ((-b + Real.sqrt (b * b - 4 * a * c)) / (2 * a)),
           Root.num ((-b - Real.sqrt (b * b - 4 * a * c)) / (2 * a))]
    ∧ (∀ r : ℝ, Root.num r ∈ findRoots Real.sqrt [a, b, c] → a * r ^ 2 + b * r + c = 0)
    ∧ (b * b - 4 * a * c = 0 →
        (-b + Real.sqrt (b * b - 4 * a * c)) / (2 * a)
          = (-b - Real.sqrt (b * b - 4 * a * c)) / (2 * a))
    ∧ findRoots Real.sqrt [(1 : ℝ), 2, 1] = [Root.num (-1 : ℝ), Root.num (-1)] := by
  have hval : findRoots Real.sqrt [a, b, c]
        = [Root.num ((-b + Real.sqrt (b * b - 4 * a * c)) / (2 * a)),
           Root.num ((-b - Real.sqrt (b * b - 4 * a * c)) / (2 * a))] := by
    rw [findRoots_three, if_pos hD]
  have hs : Real.sqrt (b * b - 4 * a * c) * Real.sqrt (b * b - 4 * a * c) = b * b - 4 * a * c :=
    Real.mul_self_sqrt hD
  refine ⟨hval, ?_, ?_, ?_⟩
  · intro r hr
    rw [hval] at hr
    simp only [List.mem_cons, Root.num.injEq, List.mem_singleton, List.not_mem_nil, or_false] at hr
    rcases hr with rfl | rfl
    · field_simp
      linear_combination (2 * a ^ 2) * hs
    · field_simp
      linear_combination (2 * a ^ 2) * hs
  · intro h0
    rw [h0, Real.sqrt_zero, add_zero, sub_zero]
  · rw [findRoots_three]
    norm_num

theorem findRoots_real_pair_witness :
    ((1 : ℝ) ≠ 0) ∧ ((-3 : ℝ) * (-3) - 4 * 1 * 2 ≥ 0)
    ∧ (∀ r : ℝ, Root.num r ∈ findRoots Real.sqrt [(1 : ℝ), -3, 2] → 1 * r ^ 2 + (-3) * r + 2 = 0) :=
  ⟨by norm_num, by norm_num, (findRoots_real_pair 1 (-3) 2 (by norm_num) (by norm_num)).2.1⟩

/-- C10: `findRoots` returns the empty root list for every coefficient sequence of length 1
and for every coefficient sequence of length at least 4, whatever its entries (and whatever
the square-root function); in particular for `[1, 2, 3, 2, 1]`.  The embedding is a total
function, so there is no raising path. -/
theorem findRoots_unsupported_degree {K : Type} [LinearOrderedField K] (sqrt : K → K)
    (coeffs : List K) (h : coeffs.length = 1 ∨ 4 ≤ coeffs.length) :
    findRoots sqrt coeffs = []
    ∧ findRoots sqrt [(1 : K), 2, 3, 2, 1] = [] := by
  constructor
  · unfold findRoots
    rcases h with h | h
    · simp [h]
    · have h1 : ¬ ((coeffs.length : Int) - 1 = 0) := by omega
      have h2 : ¬ ((coeffs.length : Int) - 1 = 1) := by omega
      have h3 : ¬ ((coeffs.length : Int) - 1 = 2) := by omega
      simp [h1, h2, h3]
  · simp [findRoots]

theorem findRoots_unsupported_degree_witness :
    ([(7 : ℚ)].length = 1 ∨ 4 ≤ [(7 : ℚ)].length)
    ∧ findRoots (fun x : ℚ => x) [(7 : ℚ)] = []
    ∧ findRoots (fun x : ℚ => x) [(1 : ℚ), 2, 3, 2, 1] = [] :=
  ⟨by decide, findRoots_unsupported_degree (fun x : ℚ => x) [(7 : ℚ)] (by decide)⟩


/-! ## Complex kernel identities -/

theorem normSq_ne_zero_of_ne (b : Cx ℝ) (hb : b ≠ { real := 0, imag := 0 }) :
    b.real * b.real + b.imag * b.imag ≠ 0 := by
  intro h
  apply hb
  have h1 : b.real = 0 := by nlinarith [mul_self_nonneg b.real, mul_self_nonneg b.imag]
  have h2 : b.imag = 0 := by nlinarith [mul_self_nonneg b.real, mul_self_nonneg b.imag]
  cases b
  simp_all

/-- C5: for all complex `a` and `b` with `b != (0, 0)`,
`complexDivide (complexMultiply a b) b = a` in real arithmetic. -/
theorem complexDivide_complexMultiply_cancel (a b : Cx ℝ) (hb : b ≠ { real := 0, imag := 0 }) :
    complexDivide (complexMultiply a b) b = a := by
  have hn := normSq_ne_zero_of_ne b hb
  obtain ⟨ar, ai⟩ := a
  obtain ⟨br, bi⟩ := b
  simp only [complexDivide, complexMultiply, Cx.mk.injEq] at hn ⊢
  constructor
  · field_simp
    ring
  · field_simp
    ring

theorem complexDivide_complexMultiply_cancel_witness :
    (({ real := 3, imag := 4 } : Cx ℝ) ≠ { real := 0, imag := 0 })
    ∧ complexDivide (complexMultiply ({ real := 1, imag := 2 } : Cx ℝ) { real := 3, imag := 4 })
        { real := 3, imag := 4 } = { real := 1, imag := 2 } :=
  ⟨by simp, complexDivide_complexMultiply_cancel _ _ (by simp)⟩

/-- C6: `complexPower base n` is `base` multiplied by itself `n` times: it is `(1, 0)` for
`n = 0`, `base` for `n = 1`, it is the complex power `base^n`, for `n >= 2` (written `n + 2`)
it is `complexMultiply (complexPower base (n - 1)) base`, and for every `n`, the special-cased
`0` and `1` included, it agrees with what the loop alone returns. -/
theorem complexPower_spec (base : Cx ℝ) (n : Nat) :
    complexPower base 0 = { real := 1, imag := 0 }
    ∧ complexPower base 1 = base
    ∧ toComplex (complexPower base n) = toComplex base ^ n
    ∧ complexPower base (n + 2) = complexMultiply (complexPower base (n + 1)) base
    ∧ complexPower base n = complexPowerLoop base n
    ∧ complexPowerLoop base 0 = { real := 1, imag := 0 }
    ∧ complexPowerLoop base 1 = base := by
  refine ⟨by simp [complexPower], by simp [complexPower], toComplex_complexPower base n, ?_,
    complexPower_eq_loop base n, complexPowerLoop_zero base, complexPowerLoop_one base⟩
  rw [complexPower_eq_loop, complexPower_eq_loop, complexPowerLoop_succ]

/-- C7: for all complex `a` and `b`, the magnitude `sqrt(real^2 + imag^2)` of
`complexMultiply a b` is the product of the magnitudes of `a` and `b`. -/
theorem complexMagnitude_complexMultiply (a b : Cx ℝ) :
    complexMagnitude Real.sqrt (complexMultiply a b)
      = complexMagnitude Real.sqrt a * complexMagnitude Real.sqrt b := by
  unfold complexMagnitude complexMultiply
  rw [← Real.sqrt_mul (add_nonneg (mul_self_nonneg a.real) (mul_self_nonneg a.imag))]
  congr 1
  ring

/-! ## Logarithmic sweep -/

theorem foldl_push_pair {α β : Type} (f : Nat → α) (g : Nat → β) (n : Nat) :
    (List.range n).foldl (fun (data : List α × List β) i => (data.1 ++ [f i], data.2 ++ [g i]))
        ([], [])
      = ((List.range n).map f, (List.range n).map g) := by
  induction n with
  | zero => rfl
  | succ k ih => rw [List.range_succ, List.foldl_append, ih]; simp

theorem sweepLoop_eq_map {K : Type} [LinearOrderedField K] (sqrt log10 : K → K)
    (pow atan2 : K → K → K) (PI : K) (numCoeffs denCoeffs : List K) (freqMin freqMax : K)
    (numPoints : Nat) :
    sweepLoop sqrt log10 pow atan2 PI numCoeffs denCoeffs freqMin freqMax numPoints
      = ((List.range numPoints).map (fun i =>
            { omega := sweepOmega log10 pow freqMin freqMax numPoints i
              magnitude := magnitudeDB sqrt log10
                (transferValue numCoeffs denCoeffs
                  (sweepOmega log10 pow freqMin freqMax numPoints i)) }),
         (List.range numPoints).map (fun i =>
            { omega := sweepOmega log10 pow freqMin freqMax numPoints i
              phase := complexPhase atan2 PI
                (transferValue numCoeffs denCoeffs
                  (sweepOmega log10 pow freqMin freqMax numPoints i)) })) := by
  unfold sweepLoop
  exact foldl_push_pair _ _ numPoints

theorem sweepOmega_real (freqMin freqMax : ℝ) (numPoints i : Nat) :
    sweepOmega (Real.logb 10) (fun x y : ℝ => x ^ y) freqMin freqMax numPoints i
      = (10 : ℝ) ^ (Real.logb 10 freqMin
          + (i : ℝ) * ((Real.logb 10 freqMax - Real.logb 10 freqMin) / ((numPoints : ℝ) - 1))) :=
  rfl

theorem sweepOmega_pos (freqMin freqMax : ℝ) (numPoints i : Nat) :
    0 < sweepOmega (Real.logb 10) (fun x y : ℝ => x ^ y) freqMin freqMax numPoints i := by
  rw [sweepOmega_real]
  exact Real.rpow_pos_of_pos (by norm_num) _

theorem logStep_pos (freqMin freqMax : ℝ) (numPoints : Nat)
    (hmin : 0 < freqMin) (hmax : freqMin < freqMax) (hn : 2 ≤ numPoints) :
    0 < (Real.logb 10 freqMax - Real.logb 10 freqMin) / ((numPoints : ℝ) - 1) := by
  have h1 : Real.logb 10 freqMin < Real.logb 10 freqMax :=
    Real.logb_lt_logb (by norm_num) hmin hmax
  have h2 : (2 : ℝ) ≤ (numPoints : ℝ) := by exact_mod_cast hn
  exact div_pos (by linarith) (by linarith)

theorem sweepOmega_lt (freqMin freqMax : ℝ) (numPoints : Nat)
    (hmin : 0 < freqMin) (hmax : freqMin < freqMax) (hn : 2 ≤ numPoints) (i j : Nat)
    (hij : i < j) :
    sweepOmega (Real.logb 10) (fun x y : ℝ => x ^ y) freqMin freqMax numPoints i
      < sweepOmega (Real.logb 10) (fun x y : ℝ => x ^ y) freqMin freqMax numPoints j := by
  rw [sweepOmega_real, sweepOmega_real, Real.rpow_lt_rpow_left_iff (by norm_num)]
  have hs := logStep_pos freqMin freqMax numPoints hmin hmax hn
  have hc : (i : ℝ) < (j : ℝ) := by exact_mod_cast hij
  have := mul_lt_mul_of_pos_right hc hs
  linarith

theorem sweepOmega_first (freqMin freqMax : ℝ) (numPoints : Nat) (hmin : 0 < freqMin) :
    sweepOmega (Real.logb 10) (fun x y : ℝ => x ^ y) freqMin freqMax numPoints 0 = freqMin := by
  rw [sweepOmega_real, Nat.cast_zero, zero_mul, add_zero]
  exact Real.rpow_logb (by norm_num) (by norm_num) hmin

theorem sweepOmega_last (freqMin freqMax : ℝ) (numPoints : Nat)
    (hmin : 0 < freqMin) (hmax : freqMin < freqMax) (hn : 2 ≤ numPoints) :
    sweepOmega (Real.logb 10) (fun x y : ℝ => x ^ y) freqMin freqMax numPoints (numPoints - 1)
      = freqMax := by
  have h2 : (2 : ℝ) ≤ (numPoints : ℝ) := by exact_mod_cast hn
  have hne : (numPoints : ℝ) - 1 ≠ 0 := by linarith
  have hcast : ((numPoints - 1 : ℕ) : ℝ) = (numPoints : ℝ) - 1 := by
    rw [Nat.cast_sub (by omega)]; simp
  rw [sweepOmega_real, hcast, mul_div_cancel₀ _ hne, add_sub_cancel]
  exact Real.rpow_logb (by norm_num) (by norm_num) (lt_trans hmin hmax)

/-- C4: for `freqMin > 0`, `freqMax > freqMin` and `numPoints >= 2`, the frequencies the sweep
loop of `calculateBodePlot` emits are `omega_i = 10^(log10 freqMin + i*step)` for
`i = 0 .. numPoints - 1` with `step = (log10 freqMax - log10 freqMin)/(numPoints - 1)` (the same
in the magnitude and the phase data); they are strictly increasing in `i`, the first one is
`freqMin` and the last one is `freqMax`, exactly, in real arithmetic. -/
theorem sweep_strictly_increasing (sqrt : ℝ → ℝ) (atan2 : ℝ → ℝ → ℝ) (PI : ℝ)
    (numCoeffs denCoeffs : List ℝ) (freqMin freqMax : ℝ) (numPoints : Nat)
    (hmin : 0 < freqMin) (hmax : freqMin < freqMax) (hn : 2 ≤ numPoints) :
    (sweepLoop sqrt (Real.logb 10) (fun x y : ℝ => x ^ y) atan2 PI numCoeffs denCoeffs
        freqMin freqMax numPoints).1.map MagPoint.omega
      = (List.range numPoints).map (fun i : Nat =>
          (10 : ℝ) ^ (Real.logb 10 freqMin
            + (i : ℝ) * ((Real.logb 10 freqMax - Real.logb 10 freqMin) / ((numPoints : ℝ) - 1))))
    ∧ (sweepLoop sqrt (Real.logb 10) (fun x y : ℝ => x ^ y) atan2 PI numCoeffs denCoeffs
        freqMin freqMax numPoints).2.map PhasePoint.omega
      = (sweepLoop sqrt (Real.logb 10) (fun x y : ℝ => x ^ y) atan2 PI numCoeffs denCoeffs
        freqMin freqMax numPoints).1.map MagPoint.omega
    ∧ List.Pairwise (fun x y : ℝ => x < y)
        ((sweepLoop sqrt (Real.logb 10) (fun x y : ℝ => x ^ y) atan2 PI numCoeffs denCoeffs
          freqMin freqMax numPoints).1.map MagPoint.omega)
    ∧ ((sweepLoop sqrt (Real.logb 10) (fun x y : ℝ => x ^ y) atan2 PI numCoeffs denCoeffs
          freqMin freqMax numPoints).1.map MagPoint.omega)[0]? = some freqMin
    ∧ ((sweepLoop sqrt (Real.logb 10) (fun x y : ℝ => x ^ y) atan2 PI numCoeffs denCoeffs
          freqMin freqMax numPoints).1.map MagPoint.omega)[numPoints - 1]? = some freqMax := by
  have hmap : (sweepLoop sqrt (Real.logb 10) (fun x y : ℝ => x ^ y) atan2 PI numCoeffs denCoeffs
        freqMin freqMax numPoints).1.map MagPoint.omega
      = (List.range numPoints).map (fun i : Nat =>
          sweepOmega (Real.logb 10) (fun x y : ℝ => x ^ y) freqMin freqMax numPoints i) := by
    rw [sweepLoop_eq_map, List.map_map]
    rfl
  refine ⟨?_, ?_, ?_, ?_, ?_⟩
  · rw [hmap]
    exact List.map_congr_left (fun i _ => sweepOmega_real freqMin freqMax numPoints i)
  · rw [sweepLoop_eq_map, List.map_map, List.map_map]
    rfl
  · rw [hmap]
    exact List.Pairwise.map _ (fun i j hij => sweepOmega_lt freqMin freqMax numPoints hmin hmax hn i j hij)
      (List.pairwise_lt_range numPoints)
  · rw [hmap]
    have h0 : 0 < numPoints := by omega
    simp [h0, sweepOmega_first freqMin freqMax numPoints hmin]
  · rw [hmap]
    have h1 : numPoints - 1 < numPoints := by omega
    simp [h1, sweepOmega_last freqMin freqMax numPoints hmin hmax hn]


theorem sweep_strictly_increasing_witness :
    ((0 : ℝ) < 1) ∧ ((1 : ℝ) < 100) ∧ (2 ≤ 3)
    ∧ ((sweepLoop Real.sqrt (Real.logb 10) (fun x y : ℝ => x ^ y)
          (fun y x : ℝ => Complex.arg ⟨x, y⟩) Real.pi [1] [1, 1] 1 100 3).1.map
        MagPoint.omega)[3 - 1]? = some 100 :=
  ⟨by norm_num, by norm_num, by norm_num,
    (sweep_strictly_increasing Real.sqrt (fun y x : ℝ => Complex.arg ⟨x, y⟩) Real.pi [1] [1, 1]
      1 100 3 (by norm_num) (by norm_num) (by norm_num)).2.2.2.2⟩

/-! ## Reference responses -/

theorem evaluatePolynomial_one (c omega : ℝ) :
    evaluatePolynomial [c] omega = { real := c, imag := 0 } := by
  simp [evaluatePolynomial, complexPower, complexMultiply, complexAdd, List.range_succ]

theorem evaluatePolynomial_two (a b omega : ℝ) :
    evaluatePolynomial [a, b] omega = { real := b, imag := omega * a } := by
  simp [evaluatePolynomial, complexPower, complexMultiply, complexAdd, List.range_succ]

theorem log10_two_bounds : (0.3010 : ℝ) < Real.logb 10 2 ∧ Real.logb 10 2 < (0.3011 : ℝ) := by
  have h10 : (0 : ℝ) < Real.log 10 := Real.log_pos (by norm_num)
  have hlo : Real.log ((10 : ℝ) ^ 3010) < Real.log ((2 : ℝ) ^ 10000) :=
    Real.log_lt_log (by positivity) (by norm_num)
  have hhi : Real.log ((2 : ℝ) ^ 10000) < Real.log ((10 : ℝ) ^ 3011) :=
    Real.log_lt_log (by positivity) (by norm_num)
  rw [Real.log_pow, Real.log_pow] at hlo hhi
  push_cast at hlo hhi
  unfold Real.logb
  constructor
  · rw [lt_div_iff₀ h10]; linarith
  · rw [div_lt_iff₀ h10]; linarith

theorem arg_half_sub_half : Complex.arg ⟨1 / 2, -(1 / 2)⟩ = -(Real.pi / 4) := by
  have hr : (0 : ℝ) < Real.sqrt 2 / 2 := by positivity
  have hθ : -(Real.pi / 4) ∈ Set.Ioc (-Real.pi) Real.pi := by
    constructor <;> linarith [Real.pi_pos]
  have h := Complex.arg_mul_cos_add_sin_mul_I hr hθ
  have h2 : Real.sqrt 2 * Real.sqrt 2 = 2 := Real.mul_self_sqrt (by norm_num)
  have e : (⟨1 / 2, -(1 / 2)⟩ : ℂ)
      = ((Real.sqrt 2 / 2 : ℝ) : ℂ)
          * (Complex.cos ((-(Real.pi / 4) : ℝ) : ℂ) + Complex.sin ((-(Real.pi / 4) : ℝ) : ℂ) * Complex.I) := by
    rw [← Complex.ofReal_cos, ← Complex.ofReal_sin, Real.cos_neg, Real.sin_neg,
      Real.cos_pi_div_four, Real.sin_pi_div_four]
    apply Complex.ext
    · simp
      nlinarith
    · simp
      nlinarith
  rw [e]
  exact h

/-- C8: for the first-order low-pass `Num = [1]`, `Den = [1, 1]` and every real `omega`, the
response `H = complexDivide (evaluatePolynomial [1] omega) (evaluatePolynomial [1, 1] omega)` is
`(1/(1+omega^2), -omega/(1+omega^2))` and its magnitude is `1/sqrt(1+omega^2)`; at `omega = 1`
the magnitude is exactly `1/sqrt 2`, `magnitudeDB` is `20*log10(1/sqrt 2)`, which lies between
`-3.011` and `-3.010` (about `-3.01` dB), and the phase is exactly `-45` degrees. -/
theorem lowpass_response (omega : ℝ) :
    transferValue [1] [1, 1] omega
        = { real := 1 / (1 + omega ^ 2), imag := -omega / (1 + omega ^ 2) }
    ∧ complexMagnitude Real.sqrt (transferValue [1] [1, 1] omega) = 1 / Real.sqrt (1 + omega ^ 2)
    ∧ complexMagnitude Real.sqrt (transferValue [(1 : ℝ)] [1, 1] 1) = 1 / Real.sqrt 2
    ∧ magnitudeDB Real.sqrt (Real.logb 10) (transferValue [(1 : ℝ)] [1, 1] 1)
        = 20 * Real.logb 10 (1 / Real.sqrt 2)
    ∧ (-3.011 : ℝ) < magnitudeDB Real.sqrt (Real.logb 10) (transferValue [(1 : ℝ)] [1, 1] 1)
    ∧ magnitudeDB Real.sqrt (Real.logb 10) (transferValue [(1 : ℝ)] [1, 1] 1) < (-3.010 : ℝ)
    ∧ complexPhase (fun y x : ℝ => Complex.arg ⟨x, y⟩) Real.pi (transferValue [(1 : ℝ)] [1, 1] 1)
        = -45 := by
  have hH : ∀ w : ℝ, transferValue [1] [1, 1] w
        = { real := 1 / (1 + w ^ 2), imag := -w / (1 + w ^ 2) } := by
    intro w
    simp only [transferValue, evaluatePolynomial_one, evaluatePolynomial_two, complexDivide]
    congr 1 <;> ring
  have hM : ∀ w : ℝ, complexMagnitude Real.sqrt (transferValue [1] [1, 1] w)
        = 1 / Real.sqrt (1 + w ^ 2) := by
    intro w
    have hne : (1 : ℝ) + w ^ 2 ≠ 0 := by positivity
    rw [hH, complexMagnitude]
    simp only []
    have e : 1 / (1 + w ^ 2) * (1 / (1 + w ^ 2)) + -w / (1 + w ^ 2) * (-w / (1 + w ^ 2))
        = 1 / (1 + w ^ 2) := by
      rw [div_mul_div_comm, div_mul_div_comm, ← add_div,
        div_eq_div_iff (mul_ne_zero hne hne) hne]
      ring
    rw [e, Real.sqrt_div zero_le_one, Real.sqrt_one]
  have hM1 : complexMagnitude Real.sqrt (transferValue [(1 : ℝ)] [1, 1] 1) = 1 / Real.sqrt 2 := by
    rw [hM 1]
    norm_num
  have hDB : magnitudeDB Real.sqrt (Real.logb 10) (transferValue [(1 : ℝ)] [1, 1] 1)
      = 20 * Real.logb 10 (1 / Real.sqrt 2) := by
    unfold magnitudeDB
    simp only []
    rw [hM1]
  have hval : 20 * Real.logb 10 (1 / Real.sqrt 2) = -10 * Real.logb 10 2 := by
    rw [one_div, Real.logb_inv]
    unfold Real.logb
    rw [Real.log_sqrt (by norm_num)]
    ring
  obtain ⟨hlo, hhi⟩ := log10_two_bounds
  refine ⟨hH omega, hM omega, hM1, hDB, ?_, ?_, ?_⟩
  · rw [hDB, hval]; linarith
  · rw [hDB, hval]; linarith
  · rw [hH 1, complexPhase]
    simp only []
    have e : Complex.arg ⟨1 / (1 + (1 : ℝ) ^ 2), -1 / (1 + (1 : ℝ) ^ 2)⟩ = -(Real.pi / 4) := by
      rw [← arg_half_sub_half]
      congr 2 <;> norm_num
    rw [e]
    field_simp
    ring


theorem toComplex_complexDivide (a b : Cx ℝ) :
    toComplex (complexDivide a b) = toComplex a / toComplex b := by
  apply Complex.ext
  · simp only [toComplex, complexDivide, Complex.div_re, Complex.normSq_mk]
    ring
  · simp only [toComplex, complexDivide, Complex.div_im, Complex.normSq_mk]
    ring

theorem complexPhase_first_quadrant (c : Cx ℝ) (hre : 0 < c.real) (him : 0 < c.imag) :
    0 < complexPhase (fun y x : ℝ => Complex.arg ⟨x, y⟩) Real.pi c
    ∧ complexPhase (fun y x : ℝ => Complex.arg ⟨x, y⟩) Real.pi c < 90 := by
  have hpi := Real.pi_pos
  have h0 : 0 ≤ Complex.arg ⟨c.real, c.imag⟩ := Complex.arg_nonneg_iff.mpr (le_of_lt him)
  have hne : Complex.arg ⟨c.real, c.imag⟩ ≠ 0 := by
    intro h
    have := (Complex.arg_eq_zero_iff.mp h).2
    simp only at this
    linarith
  have hpos : 0 < Complex.arg ⟨c.real, c.imag⟩ := lt_of_le_of_ne h0 (Ne.symm hne)
  have hlt : Complex.arg ⟨c.real, c.imag⟩ < Real.pi / 2 :=
    lt_of_le_of_lt (le_abs_self _) (Complex.abs_arg_lt_pi_div_two_iff.mpr (Or.inl hre))
  unfold complexPhase
  constructor
  · positivity
  · rw [div_lt_iff₀ hpi]
    linarith

theorem lead_value (w : ℝ) :
    transferValue [1, 1] [1, 10] w
      = { real := (10 + w ^ 2) / (100 + w ^ 2), imag := 9 * w / (100 + w ^ 2) } := by
  simp only [transferValue, evaluatePolynomial_two, complexDivide]
  congr 1 <;> ring

theorem lead_magnitude (w : ℝ) :
    complexMagnitude Real.sqrt (transferValue [1, 1] [1, 10] w)
      = Real.sqrt ((1 + w ^ 2) / (100 + w ^ 2)) := by
  have hne : (100 : ℝ) + w ^ 2 ≠ 0 := by positivity
  rw [lead_value, complexMagnitude]
  congr 1
  simp only []
  rw [div_mul_div_comm, div_mul_div_comm, ← add_div,
    div_eq_div_iff (mul_ne_zero hne hne) hne]
  ring

theorem lead_ratio_lt (x y : ℝ) (hx : 0 < x) (hxy : x < y) :
    (1 + x ^ 2) / (100 + x ^ 2) < (1 + y ^ 2) / (100 + y ^ 2) := by
  have hx2 : (0 : ℝ) < 100 + x ^ 2 := by positivity
  have hy2 : (0 : ℝ) < 100 + y ^ 2 := by positivity
  rw [div_lt_div_iff₀ hx2 hy2]
  nlinarith [mul_pos hx (lt_trans hx hxy), mul_pos (sub_pos.mpr hxy) (add_pos hx (lt_trans hx hxy))]

theorem lead_magnitude_lt (x y : ℝ) (hx : 0 < x) (hxy : x < y) :
    complexMagnitude Real.sqrt (transferValue [1, 1] [1, 10] x)
      < complexMagnitude Real.sqrt (transferValue [1, 1] [1, 10] y) := by
  rw [lead_magnitude, lead_magnitude]
  exact Real.sqrt_lt_sqrt (by positivity) (lead_ratio_lt x y hx hxy)

theorem lead_phase (w : ℝ) (hw : 0 < w) :
    0 < complexPhase (fun y x : ℝ => Complex.arg ⟨x, y⟩) Real.pi (transferValue [1, 1] [1, 10] w)
    ∧ complexPhase (fun y x : ℝ => Complex.arg ⟨x, y⟩) Real.pi (transferValue [1, 1] [1, 10] w)
        < 90 := by
  apply complexPhase_first_quadrant
  · rw [lead_value]; simp only []; positivity
  · rw [lead_value]; simp only []; positivity

theorem lead_sweep_phase (freqMin freqMax : ℝ) (numPoints : Nat) (p : PhasePoint ℝ)
    (hp : p ∈ (sweepLoop Real.sqrt (Real.logb 10) (fun x y : ℝ => x ^ y)
          (fun y x : ℝ => Complex.arg ⟨x, y⟩) Real.pi [1, 1] [1, 10] freqMin freqMax numPoints).2) :
    0 < p.omega ∧ 0 < p.phase ∧ p.phase < 90 := by
  rw [sweepLoop_eq_map] at hp
  simp only [List.mem_map, List.mem_range] at hp
  obtain ⟨i, _, rfl⟩ := hp
  exact ⟨sweepOmega_pos freqMin freqMax numPoints i,
    lead_phase _ (sweepOmega_pos freqMin freqMax numPoints i)⟩

theorem lead_sweep_magnitude (freqMin freqMax : ℝ) (numPoints : Nat)
    (hmin : 0 < freqMin) (hmax : freqMin < freqMax) (hn : 2 ≤ numPoints) :
    List.Pairwise (fun x y : ℝ => x < y)
      ((sweepLoop Real.sqrt (Real.logb 10) (fun x y : ℝ => x ^ y)
          (fun y x : ℝ => Complex.arg ⟨x, y⟩) Real.pi [1, 1] [1, 10] freqMin freqMax
          numPoints).1.map MagPoint.magnitude) := by
  rw [sweepLoop_eq_map, List.map_map]
  refine List.Pairwise.map _ ?_ (List.pairwise_lt_range numPoints)
  intro i j hij
  simp only [Function.comp, magnitudeDB]
  have hi := sweepOmega_pos freqMin freqMax numPoints i
  have hlt := lead_magnitude_lt _ _ hi (sweepOmega_lt freqMin freqMax numPoints hmin hmax hn i j hij)
  have hpos : 0 < complexMagnitude Real.sqrt (transferValue [1, 1] [1, 10]
      (sweepOmega (Real.logb 10) (fun x y : ℝ => x ^ y) freqMin freqMax numPoints i)) := by
    rw [lead_magnitude]
    exact Real.sqrt_pos.mpr (by positivity)
  have := Real.logb_lt_logb (b := 10) (by norm_num) hpos hlt
  linarith

/-- C9: for the lead compensator `Num = [1, 1]`, `Den = [1, 10]` and every `omega > 0`, the
computed `H` is `((10 + omega^2)/(100 + omega^2), 9*omega/(100 + omega^2))`, the direct formula
`(1 + j*omega)/(10 + j*omega)`; its magnitude is `sqrt((1 + omega^2)/(100 + omega^2))`, strictly
increasing in `omega` on `omega > 0`, and its phase lies strictly between 0 and 90 degrees.
Every sample of every sweep has `omega > 0`, so the phase of every emitted point is strictly
between 0 and 90 degrees, and over a sweep with `0 < freqMin < freqMax`, `numPoints >= 2` the
emitted magnitudes (in dB) are strictly increasing; both hold for the 5-point sweep from 0.001
to 100, which emits 5 points. -/
theorem lead_compensator_response :
    (∀ omega : ℝ, 0 < omega →
        transferValue [1, 1] [1, 10] omega
          = { real := (10 + omega ^ 2) / (100 + omega ^ 2),
              imag := 9 * omega / (100 + omega ^ 2) }
        ∧ toComplex (transferValue [1, 1] [1, 10] omega)
          = (1 + Complex.I * (omega : ℂ)) / (10 + Complex.I * (omega : ℂ))
        ∧ complexMagnitude Real.sqrt (transferValue [1, 1] [1, 10] omega)
          = Real.sqrt ((1 + omega ^ 2) / (100 + omega ^ 2))
        ∧ 0 < complexPhase (fun y x : ℝ => Complex.arg ⟨x, y⟩) Real.pi
                (transferValue [1, 1] [1, 10] omega)
        ∧ complexPhase (fun y x : ℝ => Complex.arg ⟨x, y⟩) Real.pi
                (transferValue [1, 1] [1, 10] omega) < 90)
    ∧ StrictMonoOn
        (fun omega : ℝ => complexMagnitude Real.sqrt (transferValue [1, 1] [1, 10] omega))
        (Set.Ioi 0)
    ∧ (∀ (freqMin freqMax : ℝ) (numPoints : Nat) (p : PhasePoint ℝ),
        p ∈ (sweepLoop Real.sqrt (Real.logb 10) (fun x y : ℝ => x ^ y)
              (fun y x : ℝ => Complex.arg ⟨x, y⟩) Real.pi [1, 1] [1, 10]
              freqMin freqMax numPoints).2 →
          0 < p.omega ∧ 0 < p.phase ∧ p.phase < 90)
    ∧ (∀ (freqMin freqMax : ℝ) (numPoints : Nat),
        0 < freqMin → freqMin < freqMax → 2 ≤ numPoints →
          List.Pairwise (fun x y : ℝ => x < y)
            ((sweepLoop Real.sqrt (Real.logb 10) (fun x y : ℝ => x ^ y)
                (fun y x : ℝ => Complex.arg ⟨x, y⟩) Real.pi [1, 1] [1, 10]
                freqMin freqMax numPoints).1.map MagPoint.magnitude))
    ∧ (sweepLoop Real.sqrt (Real.logb 10) (fun x y : ℝ => x ^ y)
          (fun y x : ℝ => Complex.arg ⟨x, y⟩) Real.pi [1, 1] [1, 10] 0.001 100 5).2.length = 5
    ∧ (∀ p : PhasePoint ℝ,
        p ∈ (sweepLoop Real.sqrt (Real.logb 10) (fun x y : ℝ => x ^ y)
              (fun y x : ℝ => Complex.arg ⟨x, y⟩) Real.pi [1, 1] [1, 10] 0.001 100 5).2 →
          0 < p.phase ∧ p.phase < 90)
    ∧ List.Pairwise (fun x y : ℝ => x < y)
        ((sweepLoop Real.sqrt (Real.logb 10) (fun x y : ℝ => x ^ y)
            (fun y x : ℝ => Complex.arg ⟨x, y⟩) Real.pi [1, 1] [1, 10] 0.001 100
            5).1.map MagPoint.magnitude) := by
  refine ⟨?_, ?_, ?_, ?_, ?_, ?_, ?_⟩
  · intro omega h
    refine ⟨lead_value omega, ?_, lead_magnitude omega, lead_phase omega h⟩
    rw [transferValue, toComplex_complexDivide, evaluatePolynomial_two, evaluatePolynomial_two]
    congr 1 <;> apply Complex.ext <;> simp [toComplex]
  · intro x hx y _ hxy
    exact lead_magnitude_lt x y hx hxy
  · intro freqMin freqMax numPoints p hp
    exact lead_sweep_phase freqMin freqMax numPoints p hp
  · intro freqMin freqMax numPoints hmin hmax hn
    exact lead_sweep_magnitude freqMin freqMax numPoints hmin hmax hn
  · rw [sweepLoop_eq_map]
    simp
  · intro p hp
    exact (lead_sweep_phase _ _ _ p hp).2
  · exact lead_sweep_magnitude _ _ _ (by norm_num) (by norm_num) (by norm_num)

theorem lead_compensator_response_witness :
    ((0 : ℝ) < 1)
    ∧ transferValue [(1 : ℝ), 1] [1, 10] 1
        = { real := (10 + (1 : ℝ) ^ 2) / (100 + (1 : ℝ) ^ 2),
            imag := 9 * (1 : ℝ) / (100 + (1 : ℝ) ^ 2) } :=
  ⟨by norm_num, (lead_compensator_response.1 1 (by norm_num)).1⟩


/-! ## Further properties of the root finder and of the evaluator -/

theorem toComplex_injective (a b : Cx ℝ) (h : toComplex a = toComplex b) : a = b := by
  obtain ⟨ar, ai⟩ := a
  obtain ⟨br, bi⟩ := b
  simp only [toComplex, Complex.mk.injEq] at h
  simp [h.1, h.2]

/-- C11: for every `[a, b]` with `a != 0`, `findRoots` returns exactly one real value,
`-b/a`, and every returned value `r` is a root: `a*r + b = 0` (whatever the square-root
function, in every ordered field). -/
theorem findRoots_linear {K : Type} [LinearOrderedField K] (sqrt : K → K) (a b : K)
    (ha : a ≠ 0) :
    findRoots sqrt [a, b] = [Root.num (-b / a)]
    ∧ (∀ r : K, Root.num r ∈ findRoots sqrt [a, b] → a * r + b = 0) := by
  have hval : findRoots sqrt [a, b] = [Root.num (-b / a)] := by simp [findRoots]
  refine ⟨hval, ?_⟩
  intro r hr
  rw [hval] at hr
  simp only [List.mem_singleton, Root.num.injEq] at hr
  rw [hr]
  field_simp
  ring

theorem findRoots_linear_witness :
    ((2 : ℝ) ≠ 0) ∧ findRoots Real.sqrt [(2 : ℝ), 6] = [Root.num (-6 / 2)] :=
  ⟨by norm_num, (findRoots_linear Real.sqrt 2 6 (by norm_num)).1⟩

/-- C12: for every non-empty coefficient sequence, `evaluatePolynomial coeffs 0` is
`(constant term, 0)`: real part the last coefficient, imaginary part 0; and for every
single-coefficient sequence `[c]` and every `omega`, `evaluatePolynomial [c] omega = (c, 0)`. -/
theorem evaluatePolynomial_at_zero (coeffs : List ℝ) (h : coeffs ≠ []) (c omega : ℝ) :
    evaluatePolynomial coeffs 0 = { real := coeffs.getLast h, imag := 0 }
    ∧ evaluatePolynomial [c] omega = { real := c, imag := 0 } := by
  refine ⟨?_, evaluatePolynomial_one c omega⟩
  apply toComplex_injective
  rw [toComplex_evaluatePolynomial, toComplex_ofReal]
  have hpos : 0 < coeffs.length := List.length_pos.mpr h
  have hmem : coeffs.length - 1 ∈ Finset.range coeffs.length :=
    Finset.mem_range.mpr (by omega)
  rw [Finset.sum_eq_single_of_mem (coeffs.length - 1) hmem]
  · rw [Nat.sub_self, pow_zero, mul_one, List.getLast_eq_getElem,
      List.getD_eq_getElem _ _ (by omega)]
  · intro i hi hne
    have hi2 : i < coeffs.length := Finset.mem_range.mp hi
    have hp : coeffs.length - 1 - i ≠ 0 := by omega
    simp [hp]

theorem evaluatePolynomial_at_zero_witness :
    ([(1 : ℝ), 2, 3] ≠ []) ∧ evaluatePolynomial [(1 : ℝ), 2, 3] 0 = { real := 3, imag := 0 } :=
  ⟨by simp, (evaluatePolynomial_at_zero [1, 2, 3] (by simp) 0 0).1⟩

theorem toComplex_evaluatePolynomial_neg (coeffs : List ℝ) (omega : ℝ) :
    toComplex (evaluatePolynomial coeffs (-omega))
      = (starRingEnd ℂ) (toComplex (evaluatePolynomial coeffs omega)) := by
  rw [toComplex_evaluatePolynomial, toComplex_evaluatePolynomial, map_sum]
  refine Finset.sum_congr rfl ?_
  intro i _
  simp only [map_mul, map_pow, Complex.conj_ofReal, Complex.conj_I, Complex.ofReal_neg]
  ring

theorem evaluatePolynomial_neg_parts (coeffs : List ℝ) (omega : ℝ) :
    (evaluatePolynomial coeffs (-omega)).real = (evaluatePolynomial coeffs omega).real
    ∧ (evaluatePolynomial coeffs (-omega)).imag = -(evaluatePolynomial coeffs omega).imag := by
  have h := toComplex_evaluatePolynomial_neg coeffs omega
  exact ⟨by simpa [toComplex] using congrArg Complex.re h,
    by simpa [toComplex] using congrArg Complex.im h⟩

/-- C20: for every coefficient sequence and every real `omega`,
`evaluatePolynomial coeffs (-omega)` is the complex conjugate of
`evaluatePolynomial coeffs omega` (same real part, negated imaginary part); hence for the
response `H = N/D` the real part and the magnitude are even functions of `omega` and the
imaginary part is an odd one. -/
theorem evaluatePolynomial_conjugate (coeffs numCoeffs denCoeffs : List ℝ) (omega : ℝ) :
    (evaluatePolynomial coeffs (-omega)).real = (evaluatePolynomial coeffs omega).real
    ∧ (evaluatePolynomial coeffs (-omega)).imag = -(evaluatePolynomial coeffs omega).imag
    ∧ toComplex (evaluatePolynomial coeffs (-omega))
        = (starRingEnd ℂ) (toComplex (evaluatePolynomial coeffs omega))
    ∧ (transferValue numCoeffs denCoeffs (-omega)).real
        = (transferValue numCoeffs denCoeffs omega).real
    ∧ (transferValue numCoeffs denCoeffs (-omega)).imag
        = -(transferValue numCoeffs denCoeffs omega).imag
    ∧ complexMagnitude Real.sqrt (transferValue numCoeffs denCoeffs (-omega))
        = complexMagnitude Real.sqrt (transferValue numCoeffs denCoeffs omega) := by
  obtain ⟨hnr, hni⟩ := evaluatePolynomial_neg_parts numCoeffs omega
  obtain ⟨hdr, hdi⟩ := evaluatePolynomial_neg_parts denCoeffs omega
  have hre : (transferValue numCoeffs denCoeffs (-omega)).real
        = (transferValue numCoeffs denCoeffs omega).real := by
    simp only [transferValue, complexDivide, hnr, hni, hdr, hdi]
    ring
  have him : (transferValue numCoeffs denCoeffs (-omega)).imag
        = -(transferValue numCoeffs denCoeffs omega).imag := by
    simp only [transferValue, complexDivide, hnr, hni, hdr, hdi]
    ring
  refine ⟨(evaluatePolynomial_neg_parts coeffs omega).1, (evaluatePolynomial_neg_parts coeffs omega).2,
    toComplex_evaluatePolynomial_neg coeffs omega, hre, him, ?_⟩
  unfold complexMagnitude
  rw [hre, him]
  congr 1
  ring

/-- C19: for every `[a, b, c]` with negative discriminant `b^2 - 4ac`, `findRoots` returns two
complex values `z`, `w` that are complex conjugates of each other; each is a root of the
polynomial, `a*z^2 + b*z + c = (0, 0)` under `complexMultiply` and `complexAdd`; their sum is
`-b/a` and their product is `c/a`. -/
theorem findRoots_conjugate_roots (a b c : ℝ) (hD : b * b - 4 * a * c < 0) :
    ∃ z w : Cx ℝ,
      findRoots Real.sqrt [a, b, c] = [Root.cx z, Root.cx w]
      ∧ w = { real := z.real, imag := -z.imag }
      ∧ complexAdd (complexAdd (complexMultiply { real := a, imag := 0 } (complexMultiply z z))
            (complexMultiply { real := b, imag := 0 } z)) { real := c, imag := 0 }
          = { real := 0, imag := 0 }
      ∧ complexAdd (complexAdd (complexMultiply { real := a, imag := 0 } (complexMultiply w w))
            (complexMultiply { real := b, imag := 0 } w)) { real := c, imag := 0 }
          = { real := 0, imag := 0 }
      ∧ complexAdd z w = { real := -b / a, imag := 0 }
      ∧ complexMultiply z w = { real := c / a, imag := 0 } := by
  have ha : a ≠ 0 := leading_ne_zero_of_discriminant_neg a b c hD
  have hs : Real.sqrt (-(b * b - 4 * a * c)) * Real.sqrt (-(b * b - 4 * a * c))
      = -(b * b - 4 * a * c) := Real.mul_self_sqrt (by linarith)
  refine ⟨{ real := -b / (2 * a), imag := Real.sqrt (-(b * b - 4 * a * c)) / (2 * a) },
    { real := -b / (2 * a), imag := -(Real.sqrt (-(b * b - 4 * a * c)) / (2 * a)) }, ?_, rfl,
    ?_, ?_, ?_, ?_⟩
  · rw [findRoots_three, if_neg (not_le.mpr hD)]
  · generalize Real.sqrt (-(b * b - 4 * a * c)) = s at hs
    simp only [complexAdd, complexMultiply, Cx.mk.injEq]
    constructor
    · field_simp
      linear_combination (-2 * a ^ 2) * hs
    · field_simp
      ring
  · generalize Real.sqrt (-(b * b - 4 * a * c)) = s at hs
    simp only [complexAdd, complexMultiply, Cx.mk.injEq]
    constructor
    · field_simp
      linear_combination (-2 * a ^ 2) * hs
    · field_simp
      ring
  · simp only [complexAdd, Cx.mk.injEq]
    constructor
    · field_simp
      ring
    · ring
  · generalize Real.sqrt (-(b * b - 4 * a * c)) = s at hs
    simp only [complexMultiply, Cx.mk.injEq]
    constructor
    · field_simp
      linear_combination (a) * hs
    · ring

theorem findRoots_conjugate_roots_witness :
    ((0 : ℝ) * 0 - 4 * 1 * 1 < 0)
    ∧ ∃ z w : Cx ℝ,
      findRoots Real.sqrt [(1 : ℝ), 0, 1] = [Root.cx z, Root.cx w]
      ∧ w = { real := z.real, imag := -z.imag }
      ∧ complexAdd z w = { real := -0 / 1, imag := 0 }
      ∧ complexMultiply z w = { real := 1 / 1, imag := 0 } :=
  ⟨by norm_num,
    match findRoots_conjugate_roots 1 0 1 (by norm_num) with
    | ⟨z, w, h1, h2, _, _, h5, h6⟩ => ⟨z, w, h1, h2, h5, h6⟩⟩


/-! ## The decade loop and `calculateBodePlot` -/

section Calc
variable {K : Type} [LinearOrderedField K]

theorem decadeLoop_seven (sqrt log10 : K → K) (atan2 : K → K → K) (PI : K)
    (numCoeffs denCoeffs : List K) (n : Nat) :
    decadeLoop sqrt log10 atan2 PI numCoeffs denCoeffs (n + 7) 0.001 []
      = some ([0.001, 0.01, 0.1, 1, 10, 100].map (fun w : K =>
          { omega := w
            k := magnitudeDB sqrt log10 (transferValue numCoeffs denCoeffs w)
            fi := complexPhase atan2 PI (transferValue numCoeffs denCoeffs w) })) := by
  have e1 : (0.001 : K) * 10 = 0.01 := by norm_num
  have e2 : (0.01 : K) * 10 = 0.1 := by norm_num
  have e3 : (0.1 : K) * 10 = 1 := by norm_num
  have e4 : (1 : K) * 10 = 10 := by norm_num
  have e5 : (10 : K) * 10 = 100 := by norm_num
  have c1 : (0.001 : K) ≤ 100 := by norm_num
  have c2 : (0.01 : K) ≤ 100 := by norm_num
  have c3 : (0.1 : K) ≤ 100 := by norm_num
  have c4 : (1 : K) ≤ 100 := by norm_num
  have c5 : (10 : K) ≤ 100 := by norm_num
  have c6 : (100 : K) ≤ 100 := le_refl _
  have c7 : ¬ ((100 : K) * 10 ≤ 100) := by norm_num
  rw [decadeLoop, if_pos c1, e1, decadeLoop, if_pos c2, e2, decadeLoop, if_pos c3, e3,
    decadeLoop, if_pos c4, e4, decadeLoop, if_pos c5, e5, decadeLoop, if_pos c6, decadeLoop,
    if_neg c7]
  rfl

theorem decadeLoop_short (sqrt log10 : K → K) (atan2 : K → K → K) (PI : K)
    (numCoeffs denCoeffs : List K) (fuel : Nat) (hf : fuel < 7) :
    decadeLoop sqrt log10 atan2 PI numCoeffs denCoeffs fuel 0.001 [] = none := by
  have e1 : (0.001 : K) * 10 = 0.01 := by norm_num
  have e2 : (0.01 : K) * 10 = 0.1 := by norm_num
  have e3 : (0.1 : K) * 10 = 1 := by norm_num
  have e4 : (1 : K) * 10 = 10 := by norm_num
  have e5 : (10 : K) * 10 = 100 := by norm_num
  have c1 : (0.001 : K) ≤ 100 := by norm_num
  have c2 : (0.01 : K) ≤ 100 := by norm_num
  have c3 : (0.1 : K) ≤ 100 := by norm_num
  have c4 : (1 : K) ≤ 100 := by norm_num
  have c5 : (10 : K) ≤ 100 := by norm_num
  have c6 : (100 : K) ≤ 100 := le_refl _
  interval_cases fuel
  · rw [decadeLoop]
  · rw [decadeLoop, if_pos c1, decadeLoop]
  · rw [decadeLoop, if_pos c1, e1, decadeLoop, if_pos c2, decadeLoop]
  · rw [decadeLoop, if_pos c1, e1, decadeLoop, if_pos c2, e2, decadeLoop, if_pos c3, decadeLoop]
  · rw [decadeLoop, if_pos c1, e1, decadeLoop, if_pos c2, e2, decadeLoop, if_pos c3, e3,
      decadeLoop, if_pos c4, decadeLoop]
  · rw [decadeLoop, if_pos c1, e1, decadeLoop, if_pos c2, e2, decadeLoop, if_pos c3, e3,
      decadeLoop, if_pos c4, e4, decadeLoop, if_pos c5, decadeLoop]
  · rw [decadeLoop, if_pos c1, e1, decadeLoop, if_pos c2, e2, decadeLoop, if_pos c3, e3,
      decadeLoop, if_pos c4, e4, decadeLoop, if_pos c5, e5, decadeLoop, if_pos c6, decadeLoop]

theorem calculateBodePlot_empty (h : Host K) (fuel : Nat) (numerator denominator : String)
    (freqMin freqMax : K) (numPoints : Nat) (st : AppState K)
    (he : parseCoefficients h.parseFloat numerator = []
        ∨ parseCoefficients h.parseFloat denominator = []) :
    calculateBodePlot h fuel numerator denominator freqMin freqMax numPoints st = some st := by
  unfold calculateBodePlot
  simp only []
  rw [if_pos]
  rcases he with he | he
  · left; rw [he]; rfl
  · right; rw [he]; rfl

theorem calculateBodePlot_nonempty (h : Host K) (n : Nat) (numerator denominator : String)
    (freqMin freqMax : K) (numPoints : Nat) (st : AppState K)
    (hn : parseCoefficients h.parseFloat numerator ≠ [])
    (hd : parseCoefficients h.parseFloat denominator ≠ []) :
    calculateBodePlot h (n + 7) numerator denominator freqMin freqMax numPoints st
      = some
        { magnitudeData := (sweepLoop h.sqrt h.log10 h.pow h.atan2 h.PI
            (parseCoefficients h.parseFloat numerator)
            (parseCoefficients h.parseFloat denominator) freqMin freqMax numPoints).1
          phaseData := (sweepLoop h.sqrt h.log10 h.pow h.atan2 h.PI
            (parseCoefficients h.parseFloat numerator)
            (parseCoefficients h.parseFloat denominator) freqMin freqMax numPoints).2
          tableData := [0.001, 0.01, 0.1, 1, 10, 100].map (fun w : K =>
            { omega := w
              k := magnitudeDB h.sqrt h.log10
                (transferValue (parseCoefficients h.parseFloat numerator)
                  (parseCoefficients h.parseFloat denominator) w)
              fi := complexPhase h.atan2 h.PI
                (transferValue (parseCoefficients h.parseFloat numerator)
                  (parseCoefficients h.parseFloat denominator) w) })
          transferFunction := "H(s) = ("
            ++ polyString h.numToString (parseCoefficients h.parseFloat numerator)
            ++ ") / ("
            ++ polyString h.numToString (parseCoefficients h.parseFloat denominator) ++ ")"
          zeros := findRoots h.sqrt (parseCoefficients h.parseFloat numerator)
          poles := findRoots h.sqrt (parseCoefficients h.parseFloat denominator) } := by
  unfold calculateBodePlot
  simp only []
  rw [if_neg, decadeLoop_seven]
  rintro (h0 | h0)
  · exact hn (List.length_eq_zero.mp h0)
  · exact hd (List.length_eq_zero.mp h0)

end Calc


/-- C13: for every numerator/denominator pair that parses to non-empty sequences and every
sweep configuration `(freqMin, freqMax, numPoints)`, the decade loop of `calculateBodePlot`
(start at 0.001, multiply by 10 while the value is at most 100) terminates: with fuel for 7
evaluations of the loop condition the call returns, and the table it stores has exactly 6 rows
whose `omega` values are `[0.001, 0.01, 0.1, 1, 10, 100]`, whatever `freqMin`, `freqMax` and
`numPoints` are; with less fuel the loop has not finished. -/
theorem decade_table_fixed {K : Type} [LinearOrderedField K] (h : Host K) (fuel : Nat) (numerator denominator : String)
    (freqMin freqMax : K) (numPoints : Nat) (st : AppState K)
    (hn : parseCoefficients h.parseFloat numerator ≠ [])
    (hd : parseCoefficients h.parseFloat denominator ≠ [])
    (hf : 7 ≤ fuel) :
    (∃ st' : AppState K,
      calculateBodePlot h fuel numerator denominator freqMin freqMax numPoints st = some st'
      ∧ st'.tableData.length = 6
      ∧ st'.tableData.map TableRow.omega = [0.001, 0.01, 0.1, 1, 10, 100])
    ∧ (∀ small : Nat, small < 7 →
        calculateBodePlot h small numerator denominator freqMin freqMax numPoints st = none) := by
  constructor
  · obtain ⟨n, rfl⟩ : ∃ n, fuel = n + 7 := ⟨fuel - 7, by omega⟩
    rw [calculateBodePlot_nonempty h n numerator denominator freqMin freqMax numPoints st hn hd]
    exact ⟨_, rfl, rfl, rfl⟩
  · intro small hs
    unfold calculateBodePlot
    simp only []
    rw [if_neg, decadeLoop_short _ _ _ _ _ _ small hs]
    rintro (h0 | h0)
    · exact hn (List.length_eq_zero.mp h0)
    · exact hd (List.length_eq_zero.mp h0)

/-- C14, amended: when the numerator or the denominator text parses to the empty coefficient
sequence, `calculateBodePlot` short-circuits (before the decade loop, so for any fuel) and
calls no setter: the state after the call is the prior state; in particular it holds no
sweep data, no table rows and no poles or zeros when the prior state is the initial one. -/
theorem calculateBodePlot_short_circuit {K : Type} [LinearOrderedField K] (h : Host K) (fuel : Nat) (numerator denominator : String)
    (freqMin freqMax : K) (numPoints : Nat) (st : AppState K)
    (he : parseCoefficients h.parseFloat numerator = []
        ∨ parseCoefficients h.parseFloat denominator = []) :
    calculateBodePlot h fuel numerator denominator freqMin freqMax numPoints st = some st
    ∧ calculateBodePlot h fuel numerator denominator freqMin freqMax numPoints
          { magnitudeData := [], phaseData := [], transferFunction := "", poles := [],
            zeros := [], tableData := [] }
        = some { magnitudeData := [], phaseData := [], transferFunction := "", poles := [],
                 zeros := [], tableData := [] } :=
  ⟨calculateBodePlot_empty h fuel numerator denominator freqMin freqMax numPoints st he,
    calculateBodePlot_empty h fuel numerator denominator freqMin freqMax numPoints _ he⟩

/-- C16: for non-empty coefficient sequences and every `numPoints`, `calculateBodePlot` stores
exactly `numPoints` magnitude points and `numPoints` phase points; for every `i < numPoints`
the `i`-th magnitude point and the `i`-th phase point carry the same `omega_i`, the magnitude
value is `20*log10(complexMagnitude H_i)` and the phase value is `complexPhase H_i`, where
`H_i = complexDivide (N(j*omega_i)) (D(j*omega_i))`. -/
theorem sweep_points {K : Type} [LinearOrderedField K] (h : Host K) (fuel : Nat) (numerator denominator : String)
    (freqMin freqMax : K) (numPoints : Nat) (st : AppState K) (numCoeffs denCoeffs : List K)
    (hn : parseCoefficients h.parseFloat numerator = numCoeffs)
    (hd : parseCoefficients h.parseFloat denominator = denCoeffs)
    (hn0 : numCoeffs ≠ []) (hd0 : denCoeffs ≠ []) (hf : 7 ≤ fuel) :
    ∃ st' : AppState K,
      calculateBodePlot h fuel numerator denominator freqMin freqMax numPoints st = some st'
      ∧ st'.magnitudeData.length = numPoints
      ∧ st'.phaseData.length = numPoints
      ∧ ∀ i : Nat, i < numPoints →
          st'.magnitudeData[i]? = some
            { omega := sweepOmega h.log10 h.pow freqMin freqMax numPoints i
              magnitude := 20 * h.log10 (complexMagnitude h.sqrt
                (complexDivide
                  (evaluatePolynomial numCoeffs
                    (sweepOmega h.log10 h.pow freqMin freqMax numPoints i))
                  (evaluatePolynomial denCoeffs
                    (sweepOmega h.log10 h.pow freqMin freqMax numPoints i)))) }
          ∧ st'.phaseData[i]? = some
            { omega := sweepOmega h.log10 h.pow freqMin freqMax numPoints i
              phase := complexPhase h.atan2 h.PI
                (complexDivide
                  (evaluatePolynomial numCoeffs
                    (sweepOmega h.log10 h.pow freqMin freqMax numPoints i))
                  (evaluatePolynomial denCoeffs
                    (sweepOmega h.log10 h.pow freqMin freqMax numPoints i))) } := by
  obtain ⟨n, rfl⟩ : ∃ n, fuel = n + 7 := ⟨fuel - 7, by omega⟩
  subst hn hd
  rw [calculateBodePlot_nonempty h n numerator denominator freqMin freqMax numPoints st hn0 hd0]
  refine ⟨_, rfl, ?_, ?_, ?_⟩
  · simp [sweepLoop_eq_map]
  · simp [sweepLoop_eq_map]
  · intro i hi
    simp only [sweepLoop_eq_map]
    constructor
    · simp [hi, magnitudeDB, transferValue]
    · simp [hi, transferValue]



/-! ## The transfer-function label -/


theorem specTerm_eq_ite {K : Type} (numToString : K → String) (c : K) (p : Nat) :
    (if p = 0 then numToString c
      else if p = 1 then numToString c ++ "s"
      else numToString c ++ "s^" ++ toString p) = specTerm numToString c p := by
  match p with
  | 0 => rfl
  | 1 => rfl
  | q + 2 => simp [specTerm]

theorem enumFrom_terms {K : Type} (numToString : K → String) (cs : List K) (n L : Nat)
    (hL : L = n + cs.length) :
    (cs.enumFrom n).map (fun ic =>
        if L - 1 - ic.1 = 0 then numToString ic.2
        else if L - 1 - ic.1 = 1 then numToString ic.2 ++ "s"
        else numToString ic.2 ++ "s^" ++ toString (L - 1 - ic.1))
      = specTerms numToString cs := by
  induction cs generalizing n with
  | nil => rfl
  | cons c cs ih =>
    have hp : L - 1 - n = cs.length := by simp only [List.length_cons] at hL; omega
    rw [List.enumFrom_cons, List.map_cons, specTerms, ih (n + 1) (by simp only [List.length_cons] at hL; omega)]
    simp only [hp, specTerm_eq_ite]

theorem polyString_eq_specTerms {K : Type} [LinearOrderedField K] (numToString : K → String) (coeffs : List K) :
    polyString numToString coeffs = String.intercalate " + " (specTerms numToString coeffs) := by
  unfold polyString
  simp only []
  rw [List.enum, enumFrom_terms numToString coeffs 0 coeffs.length (by omega)]

theorem specTerms_length {K : Type} (numToString : K → String) (coeffs : List K) :
    (specTerms numToString coeffs).length = coeffs.length := by
  induction coeffs with
  | nil => rfl
  | cons c cs ih => simp [specTerms, ih]

theorem specTerms_getElem? {K : Type} (numToString : K → String) (coeffs : List K) (i : Nat) :
    (specTerms numToString coeffs)[i]?
      = coeffs[i]?.map (fun c => specTerm numToString c (coeffs.length - 1 - i)) := by
  induction coeffs generalizing i with
  | nil => simp [specTerms]
  | cons c cs ih =>
    cases i with
    | zero => simp [specTerms]
    | succ j =>
      simp only [specTerms, List.getElem?_cons_succ, ih j, List.length_cons]
      congr 2
      funext x
      congr 1
      omega

/-- C17: for non-empty coefficient sequences the label stored by `calculateBodePlot` is
`"H(s) = (" ++ numStr ++ ") / (" ++ denStr ++ ")"`, where each of `numStr`, `denStr` is the
terms of its coefficient list joined with `" + "`: exactly one term per coefficient (zero and
negative ones included), the `i`-th for power `length - 1 - i` (descending), and the term for
`c` at power `p` is the text of `c` alone when `p = 0`, followed by `s` when `p = 1`, followed
by `s^p` when `p >= 2`. -/
theorem transfer_label {K : Type} [LinearOrderedField K] (h : Host K) (fuel : Nat) (numerator denominator : String)
    (freqMin freqMax : K) (numPoints : Nat) (st : AppState K) (numCoeffs denCoeffs : List K)
    (hn : parseCoefficients h.parseFloat numerator = numCoeffs)
    (hd : parseCoefficients h.parseFloat denominator = denCoeffs)
    (hn0 : numCoeffs ≠ []) (hd0 : denCoeffs ≠ []) (hf : 7 ≤ fuel) :
    (∃ st' : AppState K,
      calculateBodePlot h fuel numerator denominator freqMin freqMax numPoints st = some st'
      ∧ st'.transferFunction
          = "H(s) = (" ++ String.intercalate " + " (specTerms h.numToString numCoeffs)
              ++ ") / (" ++ String.intercalate " + " (specTerms h.numToString denCoeffs) ++ ")")
    ∧ (specTerms h.numToString numCoeffs).length = numCoeffs.length
    ∧ (specTerms h.numToString denCoeffs).length = denCoeffs.length
    ∧ (∀ (coeffs : List K) (i : Nat),
        (specTerms h.numToString coeffs)[i]?
          = coeffs[i]?.map (fun c => specTerm h.numToString c (coeffs.length - 1 - i)))
    ∧ (∀ c : K, specTerm h.numToString c 0 = h.numToString c
        ∧ specTerm h.numToString c 1 = h.numToString c ++ "s"
        ∧ ∀ p : Nat, 2 ≤ p → specTerm h.numToString c p = h.numToString c ++ "s^" ++ toString p)
    ∧ (∀ a b c : K,
        polyString h.numToString [a, b, c]
          = h.numToString a ++ "s^2" ++ " + " ++ (h.numToString b ++ "s") ++ " + " ++ h.numToString c) := by
  refine ⟨?_, specTerms_length _ _, specTerms_length _ _, fun coeffs i => specTerms_getElem? _ coeffs i,
    ?_, ?_⟩
  · obtain ⟨n, rfl⟩ : ∃ n, fuel = n + 7 := ⟨fuel - 7, by omega⟩
    subst hn hd
    rw [calculateBodePlot_nonempty h n numerator denominator freqMin freqMax numPoints st hn0 hd0]
    refine ⟨_, rfl, ?_⟩
    simp only [polyString_eq_specTerms]
  · intro c
    refine ⟨rfl, rfl, ?_⟩
    intro p hp
    obtain ⟨q, rfl⟩ : ∃ q, p = q + 2 := ⟨p - 2, by omega⟩
    rfl
  · intro a b c
    rw [polyString_eq_specTerms]
    have h2 : toString (2 : Nat) = "2" := by decide
    have hs : "s^2" = "s^" ++ "2" := by decide
    simp only [specTerms, specTerm, List.length_cons, List.length_nil, String.intercalate,
      String.intercalate.go, h2, hs, String.append_assoc]



/-! ## Coefficient parsing -/

theorem splitWhiteSpaceAux_no_space (cs cur : List Char) (inSep : Bool)
    (hcur : ∀ c ∈ cur, isWhiteSpace c = false) :
    ∀ t ∈ splitWhiteSpaceAux cs cur inSep, ∀ c ∈ t.toList, isWhiteSpace c = false := by
  induction cs generalizing cur inSep with
  | nil =>
    intro t ht c hc
    simp only [splitWhiteSpaceAux, List.mem_singleton] at ht
    subst ht
    exact hcur c (by simpa using hc)
  | cons d ds ih =>
    intro t ht c hc
    unfold splitWhiteSpaceAux at ht
    by_cases hd : isWhiteSpace d = true
    · rw [if_pos hd] at ht
      cases inSep with
      | true =>
        simp only [if_true] at ht
        exact ih [] true (by simp) t ht c hc
      | false =>
        simp only [Bool.false_eq_true, if_false, List.mem_cons] at ht
        rcases ht with rfl | ht
        · exact hcur c (by simpa using hc)
        · exact ih [] true (by simp) t ht c hc
    · rw [if_neg hd] at ht
      refine ih (d :: cur) false ?_ t ht c hc
      intro x hx
      rcases List.mem_cons.mp hx with rfl | hx
      · simpa using hd
      · exact hcur x hx

theorem parseCoefficients_eq_filterMap {K : Type} (pf : String → Option K) (str : String) :
    parseCoefficients pf str = (tokens str).filterMap pf := by
  unfold parseCoefficients
  rw [List.filterMap_map]
  rfl

theorem parse_one_abc_two {K : Type} [LinearOrderedField K] :
    parseCoefficients (parseFloat : String → Option K) "1 abc 2" = [1, 2] := by
  have ht : tokens "1 abc 2" = ["1", "abc", "2"] := by decide
  have h1 : signedDecimal "1" = some (false, 1, 0, 0) := by decide
  have h2 : signedDecimal "abc" = none := by decide
  have h3 : signedDecimal "2" = some (false, 2, 0, 0) := by decide
  simp [parseCoefficients, ht, parseFloat, h1, h2, h3]

theorem parse_one_two_one {K : Type} [LinearOrderedField K] :
    parseCoefficients (parseFloat : String → Option K) "1 2 1" = [1, 2, 1] := by
  have ht : tokens "1 2 1" = ["1", "2", "1"] := by decide
  have h1 : signedDecimal "1" = some (false, 1, 0, 0) := by decide
  have h3 : signedDecimal "2" = some (false, 2, 0, 0) := by decide
  simp [parseCoefficients, ht, parseFloat, h1, h3]

theorem parse_one {K : Type} [LinearOrderedField K] :
    parseCoefficients (parseFloat : String → Option K) "1" = [1] := by
  have ht : tokens "1" = ["1"] := by decide
  have h1 : signedDecimal "1" = some (false, 1, 0, 0) := by decide
  simp [parseCoefficients, ht, parseFloat, h1]

theorem parse_one_one {K : Type} [LinearOrderedField K] :
    parseCoefficients (parseFloat : String → Option K) "1 1" = [1, 1] := by
  have ht : tokens "1 1" = ["1", "1"] := by decide
  have h1 : signedDecimal "1" = some (false, 1, 0, 0) := by decide
  simp [parseCoefficients, ht, parseFloat, h1]

theorem parse_one_ten {K : Type} [LinearOrderedField K] :
    parseCoefficients (parseFloat : String → Option K) "1 10" = [1, 10] := by
  have ht : tokens "1 10" = ["1", "10"] := by decide
  have h1 : signedDecimal "1" = some (false, 1, 0, 0) := by decide
  have h2 : signedDecimal "10" = some (false, 10, 0, 0) := by decide
  simp [parseCoefficients, ht, parseFloat, h1, h2]

theorem parse_empty {K : Type} [LinearOrderedField K] :
    parseCoefficients (parseFloat : String → Option K) "" = [] := by
  have ht : tokens "" = [""] := by decide
  have h1 : signedDecimal "" = none := by decide
  simp [parseCoefficients, ht, parseFloat, h1]

theorem parse_all_invalid {K : Type} [LinearOrderedField K] :
    parseCoefficients (parseFloat : String → Option K) " abc  x-y\t" = [] := by
  have ht : tokens " abc  x-y\t" = ["abc", "x-y"] := by decide
  have h1 : signedDecimal "abc" = none := by decide
  have h2 : signedDecimal "x-y" = none := by decide
  simp [parseCoefficients, ht, parseFloat, h1, h2]

/-- C15: for every input string and every conversion function, `parseCoefficients` returns
exactly the values of the white-space-separated tokens whose conversion succeeds, in their
order, dropping the others: the output is the `filterMap` of the tokens, is never longer than
the token list, and is empty when no token converts; no token contains white space.  With the
decimal `parseFloat`: `"1 abc 2"` yields `[1, 2]`, `"1 2 1"` yields `[1, 2, 1]`, the empty
string and an all-invalid string yield the empty sequence. -/
theorem parseCoefficients_tolerant {K : Type} [LinearOrderedField K] (pf : String → Option K)
    (str : String) :
    parseCoefficients pf str = (tokens str).filterMap pf
    ∧ (parseCoefficients pf str).length ≤ (tokens str).length
    ∧ List.Sublist ((parseCoefficients pf str).map some) ((tokens str).map pf)
    ∧ ((∀ t ∈ tokens str, pf t = none) → parseCoefficients pf str = [])
    ∧ (∀ t ∈ tokens str, ∀ c ∈ t.toList, isWhiteSpace c = false)
    ∧ tokens "1 abc 2" = ["1", "abc", "2"]
    ∧ parseCoefficients (parseFloat : String → Option K) "1 abc 2" = [1, 2]
    ∧ parseCoefficients (parseFloat : String → Option K) "1 2 1" = [1, 2, 1]
    ∧ parseCoefficients (parseFloat : String → Option K) "" = []
    ∧ parseCoefficients (parseFloat : String → Option K) " abc  x-y\t" = [] := by
  have heq := parseCoefficients_eq_filterMap pf str
  refine ⟨heq, ?_, ?_, ?_, ?_, by decide, parse_one_abc_two, parse_one_two_one, parse_empty,
    parse_all_invalid⟩
  · rw [heq]
    exact List.length_filterMap_le pf (tokens str)
  · unfold parseCoefficients
    generalize (tokens str).map pf = l
    induction l with
    | nil => simp
    | cons a l ih =>
      cases a with
      | none => simpa using List.Sublist.cons none ih
      | some x => simpa using List.Sublist.cons₂ (some x) ih
  · intro hall
    rw [heq]
    exact List.filterMap_eq_nil_iff.mpr hall
  · exact splitWhiteSpaceAux_no_space _ [] false (by simp)


/-! ## Concrete runs of `calculateBodePlot` -/

theorem decade_table_fixed_witness :
    (parseCoefficients (parseFloat : String → Option ℝ) "1 1" ≠ [])
    ∧ (parseCoefficients (parseFloat : String → Option ℝ) "1 10" ≠ [])
    ∧ ∃ st' : AppState ℝ,
      calculateBodePlot
          { parseFloat := parseFloat, numToString := fun _ => "", sqrt := Real.sqrt,
            log10 := Real.logb 10, pow := fun x y => x ^ y,
            atan2 := fun y x => Complex.arg ⟨x, y⟩, PI := Real.pi }
          7 "1 1" "1 10" 0.001 100 5
          { magnitudeData := [], phaseData := [], transferFunction := "", poles := [],
            zeros := [], tableData := [] } = some st'
      ∧ st'.tableData.length = 6
      ∧ st'.tableData.map TableRow.omega = [0.001, 0.01, 0.1, 1, 10, 100] :=
  ⟨by rw [parse_one_one]; simp, by rw [parse_one_ten]; simp,
    (decade_table_fixed
      { parseFloat := parseFloat, numToString := fun _ => "", sqrt := Real.sqrt,
        log10 := Real.logb 10, pow := fun x y => x ^ y,
        atan2 := fun y x => Complex.arg ⟨x, y⟩, PI := Real.pi }
      7 "1 1" "1 10" 0.001 100 5 _
      (by rw [parse_one_one]; simp) (by rw [parse_one_ten]; simp) (le_refl 7)).1⟩

theorem calculateBodePlot_short_circuit_witness :
    (parseCoefficients (parseFloat : String → Option ℝ) "" = []
      ∨ parseCoefficients (parseFloat : String → Option ℝ) "1 10" = [])
    ∧ calculateBodePlot
          { parseFloat := parseFloat, numToString := fun _ => "", sqrt := Real.sqrt,
            log10 := Real.logb 10, pow := fun x y => x ^ y,
            atan2 := fun y x => Complex.arg ⟨x, y⟩, PI := Real.pi }
          0 "" "1 10" 0.001 100 5
          { magnitudeData := [], phaseData := [], transferFunction := "", poles := [],
            zeros := [], tableData := [] }
        = some { magnitudeData := [], phaseData := [], transferFunction := "", poles := [],
                 zeros := [], tableData := [] } :=
  ⟨Or.inl parse_empty,
    (calculateBodePlot_short_circuit
      { parseFloat := parseFloat, numToString := fun _ => "", sqrt := Real.sqrt,
        log10 := Real.logb 10, pow := fun x y => x ^ y,
        atan2 := fun y x => Complex.arg ⟨x, y⟩, PI := Real.pi }
      0 "" "1 10" 0.001 100 5
      { magnitudeData := [], phaseData := [], transferFunction := "", poles := [],
        zeros := [], tableData := [] }
      (Or.inl parse_empty)).1⟩

/-- C14, counterexample: from the initial state, a call with numerator `"1"` and denominator
`"1 1"` (2 sweep points) stores 2 magnitude points, 2 phase points, 6 table rows and 1 pole; a
second call whose numerator text is empty (it parses to the empty sequence) returns that same
state, so after the call the sweep data, the table and the pole list still hold entries: it is
false that for every prior state they hold none. -/
theorem calculateBodePlot_stale_counterexample :
    (parseCoefficients (parseFloat : String → Option ℝ) "" = [])
    ∧ (∃ st1 : AppState ℝ,
        calculateBodePlot
            { parseFloat := parseFloat, numToString := fun _ => "", sqrt := Real.sqrt,
              log10 := Real.logb 10, pow := fun x y => x ^ y,
              atan2 := fun y x => Complex.arg ⟨x, y⟩, PI := Real.pi }
            7 "1" "1 1" 0.001 100 2
            { magnitudeData := [], phaseData := [], transferFunction := "", poles := [],
              zeros := [], tableData := [] } = some st1
        ∧ calculateBodePlot
            { parseFloat := parseFloat, numToString := fun _ => "", sqrt := Real.sqrt,
              log10 := Real.logb 10, pow := fun x y => x ^ y,
              atan2 := fun y x => Complex.arg ⟨x, y⟩, PI := Real.pi }
            7 "" "1 1" 0.001 100 2 st1 = some st1
        ∧ st1.magnitudeData.length = 2
        ∧ st1.phaseData.length = 2
        ∧ st1.tableData.length = 6
        ∧ st1.poles.length = 1)
    ∧ ¬ (∀ (h : Host ℝ) (fuel : Nat) (numerator denominator : String) (freqMin freqMax : ℝ)
          (numPoints : Nat) (st st' : AppState ℝ),
          (parseCoefficients h.parseFloat numerator = []
            ∨ parseCoefficients h.parseFloat denominator = []) →
          calculateBodePlot h fuel numerator denominator freqMin freqMax numPoints st = some st' →
          st'.magnitudeData = [] ∧ st'.phaseData = [] ∧ st'.tableData = []
            ∧ st'.poles = [] ∧ st'.zeros = []) := by
  have hn : parseCoefficients (parseFloat : String → Option ℝ) "1" ≠ [] := by
    rw [parse_one]; simp
  have hd : parseCoefficients (parseFloat : String → Option ℝ) "1 1" ≠ [] := by
    rw [parse_one_one]; simp
  have hfirst := calculateBodePlot_nonempty
    ({ parseFloat := parseFloat, numToString := fun _ => "", sqrt := Real.sqrt,
       log10 := Real.logb 10, pow := fun x y => x ^ y,
       atan2 := fun y x => Complex.arg ⟨x, y⟩, PI := Real.pi } : Host ℝ)
    0 "1" "1 1" 0.001 100 2
    { magnitudeData := [], phaseData := [], transferFunction := "", poles := [],
      zeros := [], tableData := [] } hn hd
  have hex : ∃ st1 : AppState ℝ,
        calculateBodePlot
            { parseFloat := parseFloat, numToString := fun _ => "", sqrt := Real.sqrt,
              log10 := Real.logb 10, pow := fun x y => x ^ y,
              atan2 := fun y x => Complex.arg ⟨x, y⟩, PI := Real.pi }
            7 "1" "1 1" 0.001 100 2
            { magnitudeData := [], phaseData := [], transferFunction := "", poles := [],
              zeros := [], tableData := [] } = some st1
        ∧ calculateBodePlot
            { parseFloat := parseFloat, numToString := fun _ => "", sqrt := Real.sqrt,
              log10 := Real.logb 10, pow := fun x y => x ^ y,
              atan2 := fun y x => Complex.arg ⟨x, y⟩, PI := Real.pi }
            7 "" "1 1" 0.001 100 2 st1 = some st1
        ∧ st1.magnitudeData.length = 2
        ∧ st1.phaseData.length = 2
        ∧ st1.tableData.length = 6
        ∧ st1.poles.length = 1 := by
    refine ⟨_, hfirst, calculateBodePlot_empty _ 7 "" "1 1" 0.001 100 2 _ (Or.inl parse_empty),
      ?_, ?_, rfl, ?_⟩
    · simp [sweepLoop_eq_map]
    · simp [sweepLoop_eq_map]
    · simp only [parse_one_one]
      simp [findRoots]
  refine ⟨parse_empty, hex, ?_⟩
  intro hall
  obtain ⟨st1, _, h2, hlen, _⟩ := hex
  have := (hall _ 7 "" "1 1" 0.001 100 2 st1 st1 (Or.inl parse_empty) h2).1
  rw [this] at hlen
  simp at hlen

theorem sweep_points_witness :
    (parseCoefficients (parseFloat : String → Option ℝ) "1 1" = [1, 1])
    ∧ (parseCoefficients (parseFloat : String → Option ℝ) "1 10" = [1, 10])
    ∧ ∃ st' : AppState ℝ,
      calculateBodePlot
          { parseFloat := parseFloat, numToString := fun _ => "", sqrt := Real.sqrt,
            log10 := Real.logb 10, pow := fun x y => x ^ y,
            atan2 := fun y x => Complex.arg ⟨x, y⟩, PI := Real.pi }
          7 "1 1" "1 10" 0.001 100 5
          { magnitudeData := [], phaseData := [], transferFunction := "", poles := [],
            zeros := [], tableData := [] } = some st'
      ∧ st'.magnitudeData.length = 5
      ∧ st'.phaseData.length = 5 :=
  ⟨parse_one_one, parse_one_ten,
    match sweep_points
      ({ parseFloat := parseFloat, numToString := fun _ => "", sqrt := Real.sqrt,
         log10 := Real.logb 10, pow := fun x y => x ^ y,
         atan2 := fun y x => Complex.arg ⟨x, y⟩, PI := Real.pi } : Host ℝ)
      7 "1 1" "1 10" 0.001 100 5
      { magnitudeData := [], phaseData := [], transferFunction := "", poles := [],
        zeros := [], tableData := [] }
      [1, 1] [1, 10] parse_one_one parse_one_ten (by simp) (by simp) (le_refl 7) with
    | ⟨st', h1, h2, h3, _⟩ => ⟨st', h1, h2, h3⟩⟩

theorem transfer_label_witness :
    (parseCoefficients (parseFloat : String → Option ℚ) "1 1" = [1, 1])
    ∧ (parseCoefficients (parseFloat : String → Option ℚ) "1 10" = [1, 10])
    ∧ ∃ st' : AppState ℚ,
      calculateBodePlot
          ({ parseFloat := parseFloat, numToString := fun q => toString q, sqrt := fun x => x,
             log10 := fun x => x, pow := fun x _ => x, atan2 := fun y _ => y, PI := 3 } : Host ℚ)
          7 "1 1" "1 10" 1 100 5
          { magnitudeData := [], phaseData := [], transferFunction := "", poles := [],
            zeros := [], tableData := [] } = some st'
      ∧ st'.transferFunction
          = "H(s) = (" ++ String.intercalate " + " (specTerms (fun q : ℚ => toString q) [1, 1])
              ++ ") / (" ++ String.intercalate " + " (specTerms (fun q : ℚ => toString q) [1, 10])
              ++ ")" :=
  ⟨parse_one_one, parse_one_ten,
    (transfer_label
      ({ parseFloat := parseFloat, numToString := fun q => toString q, sqrt := fun x => x,
         log10 := fun x => x, pow := fun x _ => x, atan2 := fun y _ => y, PI := 3 } : Host ℚ)
      7 "1 1" "1 10" 1 100 5
      { magnitudeData := [], phaseData := [], transferFunction := "", poles := [],
        zeros := [], tableData := [] }
      [1, 1] [1, 10] parse_one_one parse_one_ten (by simp) (by simp) (le_refl 7)).1⟩


end BodePlot
